import Mathlib

/-!
Verification development for the resilient authenticated duplex-messaging
client of the Kohaku repository (`src/client/core/comm.py`).

The Python module is shallowly embedded below:

* wire strings (Python `str`) are modelled as `List Char`, byte strings
  (Python `bytes`) as `List Nat` with every element `< 256`;
* `hmac.new(secret, payload, hashlib.sha256).hexdigest()` is modelled by an
  executable HMAC-SHA256 over `List Nat` bytes (FIPS 180-4 / RFC 2104);
* `json.dumps` / `json.loads` (CPython defaults: `ensure_ascii=True`,
  separators `", "` and `": "`) are modelled by an executable serializer and
  recursive-descent parser over a `Json` inductive; JSON numbers are modelled
  as integers only — float literals with a `'.'` can never survive the
  dot-delimited frame format of this protocol, and exponent literals are
  neither produced by the signer nor exercised by any claim;
* the `WebSocketClient` methods `sign_message`, `verify_message`,
  `send_message`, `handle_message`, `listen`, `run`, `connect`, `stop`
  are each translated into pure functions / state-step functions, with the
  surrounding event loop replaced by explicit scripts of external events
  (connect attempt outcomes, inbound frames, stop requests).
-/

set_option maxRecDepth 40000

namespace Kohaku

/-! ## Definitions: hashing, JSON codec, and the comm.py model -/

/-- 32-bit truncation, used after every arithmetic step of SHA-256. -/
def w32 (x : Nat) : Nat := x % 4294967296

/-- 32-bit right rotation. -/
def rot32r (n x : Nat) : Nat := w32 ((x >>> n) ||| (x <<< (32 - n)))

/-- SHA-256 small sigma 0. -/
def schedSig0 (x : Nat) : Nat := (rot32r 7 x) ^^^ (rot32r 18 x) ^^^ (x >>> 3)

/-- SHA-256 small sigma 1. -/
def schedSig1 (x : Nat) : Nat := (rot32r 17 x) ^^^ (rot32r 19 x) ^^^ (x >>> 10)

/-- SHA-256 big sigma 0. -/
def roundSig0 (x : Nat) : Nat := (rot32r 2 x) ^^^ (rot32r 13 x) ^^^ (rot32r 22 x)

/-- SHA-256 big sigma 1. -/
def roundSig1 (x : Nat) : Nat := (rot32r 6 x) ^^^ (rot32r 11 x) ^^^ (rot32r 25 x)

/-- SHA-256 round constants (FIPS 180-4), written in decimal. -/
def sha256K : List Nat :=
  [1116352408, 1899447441, 3049323471, 3921009573, 961987163,
   1508970993, 2453635748, 2870763221, 3624381080, 310598401,
   607225278, 1426881987, 1925078388, 2162078206, 2614888103,
   3248222580, 3835390401, 4022224774, 264347078, 604807628,
   770255983, 1249150122, 1555081692, 1996064986, 2554220882,
   2821834349, 2952996808, 3210313671, 3336571891, 3584528711,
   113926993, 338241895, 666307205, 773529912, 1294757372,
   1396182291, 1695183700, 1986661051, 2177026350, 2456956037,
   2730485921, 2820302411, 3259730800, 3345764771, 3516065817,
   3600352804, 4094571909, 275423344, 430227734, 506948616,
   659060556, 883997877, 958139571, 1322822218, 1537002063,
   1747873779, 1955562222, 2024104815, 2227730452, 2361852424,
   2428436474, 2756734187, 3204031479, 3329325298]

/-- SHA-256 initial hash state (FIPS 180-4), written in decimal. -/
def sha256H0 : List Nat :=
  [1779033703, 3144134277, 1013904242, 2773480762, 1359893119,
   2600822924, 528734635, 1541459225]

/-- Big-endian 8-byte encoding of a natural number (for the length field). -/
def be64 (n : Nat) : List Nat :=
  [(n >>> 56) &&& 255, (n >>> 48) &&& 255, (n >>> 40) &&& 255, (n >>> 32) &&& 255,
   (n >>> 24) &&& 255, (n >>> 16) &&& 255, (n >>> 8) &&& 255, n &&& 255]

/-- Big-endian 4-byte encoding of a 32-bit word. -/
def be32 (w : Nat) : List Nat :=
  [(w >>> 24) &&& 255, (w >>> 16) &&& 255, (w >>> 8) &&& 255, w &&& 255]

/-- SHA-256 message padding: append `0x80`, zeros, then the bit length. -/
def sha256Pad (msg : List Nat) : List Nat :=
  let len := msg.length
  let zeros := (64 - ((len + 9) % 64)) % 64
  msg ++ [0x80] ++ List.replicate zeros 0 ++ be64 (8 * len)

/-- Group a byte list into big-endian 32-bit words (length a multiple of 4). -/
def toWords : List Nat → List Nat
  | b0 :: b1 :: b2 :: b3 :: rest =>
    (((b0 <<< 24) ||| (b1 <<< 16)) ||| ((b2 <<< 8) ||| b3)) :: toWords rest
  | _ => []

/-- Split a word list into 16-word blocks (length is a multiple of 16). -/
def toBlocks : List Nat → List (List Nat)
  | w0 :: w1 :: w2 :: w3 :: w4 :: w5 :: w6 :: w7 ::
    w8 :: w9 :: w10 :: w11 :: w12 :: w13 :: w14 :: w15 :: rest =>
    [w0, w1, w2, w3, w4, w5, w6, w7, w8, w9, w10, w11, w12, w13, w14, w15] ::
      toBlocks rest
  | _ => []

/-- Extend a 16-word block to the 64-word message schedule. -/
def sha256Sched (block : List Nat) : List Nat :=
  (List.range 48).foldl
    (fun w _ =>
      let n := w.length
      w ++ [w32 (schedSig1 (w.getD (n - 2) 0) + w.getD (n - 7) 0 +
                 schedSig0 (w.getD (n - 15) 0) + w.getD (n - 16) 0)])
    block

/-- One SHA-256 compression round. -/
def sha256Round (st : List Nat) (wk : Nat × Nat) : List Nat :=
  match st with
  | [a, b, c, d, e, f, g, h] =>
    let t1 := w32 (h + roundSig1 e + ((e &&& f) ^^^ ((2 ^ 32 - 1 - e) &&& g)) + wk.2 + wk.1)
    let t2 := w32 (roundSig0 a + ((a &&& b) ^^^ (a &&& c) ^^^ (b &&& c)))
    [w32 (t1 + t2), a, b, c, w32 (d + t1), e, f, g]
  | other => other

/-- Process one 16-word block against the running hash state. -/
def sha256Block (st : List Nat) (block : List Nat) : List Nat :=
  let w := sha256Sched block
  let out := (w.zip sha256K).foldl sha256Round st
  (st.zip out).map (fun p => w32 (p.1 + p.2))

/-- SHA-256 of a byte list, as 32 bytes. -/
def sha256 (msg : List Nat) : List Nat :=
  let final := (toBlocks (toWords (sha256Pad msg))).foldl sha256Block sha256H0
  final.foldr (fun w acc => be32 w ++ acc) []

/-- HMAC-SHA256 (RFC 2104) over byte lists, as 32 bytes of digest. -/
def hmacSha256 (key msg : List Nat) : List Nat :=
  let k0 := if 64 < key.length then sha256 key else key
  let k1 := k0 ++ List.replicate (64 - k0.length) 0
  sha256 ((k1.map (fun b => b ^^^ 0x5c)) ++ sha256 ((k1.map (fun b => b ^^^ 0x36)) ++ msg))

/-- Lowercase hex digit, as produced by Python's `hexdigest`. -/
def hexDigitChar (n : Nat) : Char :=
  if n < 10 then Char.ofNat (48 + n) else Char.ofNat (87 + n)

/-- Lowercase hex rendering of a byte list (Python `.hexdigest()`). -/
def bytesToHex (bs : List Nat) : List Char :=
  bs.foldr (fun b acc => hexDigitChar (b / 16) :: hexDigitChar (b % 16) :: acc) []

/-- Model of `hmac.new(key, msg, hashlib.sha256).hexdigest()` as a character list. -/
def hmacHexChars (key msg : List Nat) : List Char := bytesToHex (hmacSha256 key msg)

/-- UTF-8 encoding of a character list (Python `str.encode()`). -/
def utf8Encode (s : List Char) : List Nat :=
  s.foldr
    (fun c acc =>
      let n := c.toNat
      if n < 0x80 then n :: acc
      else if n < 0x800 then
        (0xC0 ||| (n >>> 6)) :: (0x80 ||| (n &&& 0x3F)) :: acc
      else if n < 0x10000 then
        (0xE0 ||| (n >>> 12)) :: (0x80 ||| ((n >>> 6) &&& 0x3F)) ::
          (0x80 ||| (n &&& 0x3F)) :: acc
      else
        (0xF0 ||| (n >>> 18)) :: (0x80 ||| ((n >>> 12) &&& 0x3F)) ::
          (0x80 ||| ((n >>> 6) &&& 0x3F)) :: (0x80 ||| (n &&& 0x3F)) :: acc)
    []

/-- JSON values, as handled by Python's `json` module for this protocol.
Numbers are modelled as integers: a float literal contains a `'.'` and can
therefore never pass the dot-delimited frame check of `verify_message`, and
exponent literals are produced neither by `json.dumps` on the envelopes this
client signs nor by any claim. Python strings are `List Char`. -/
inductive Json where
  | null
  | bool (b : Bool)
  | num (n : Int)
  | str (s : List Char)
  | arr (elems : List Json)
  | obj (fields : List (List Char × Json))

/-- Decimal digits of a natural number, fuel-based so that it reduces. -/
def natCharsAux : Nat → Nat → List Char → List Char
  | 0, _, acc => acc
  | fuel + 1, n, acc =>
    if n < 10 then Char.ofNat (48 + n) :: acc
    else natCharsAux fuel (n / 10) (Char.ofNat (48 + n % 10) :: acc)

/-- Decimal rendering of a natural number. -/
def natChars (n : Nat) : List Char := natCharsAux (n + 1) n []

/-- Decimal rendering of an integer (Python `repr` of an `int`). -/
def intChars (i : Int) : List Char :=
  if i < 0 then '-' :: natChars i.natAbs else natChars i.toNat

/-- Four lowercase hex digits, as in a Python `\\uXXXX` escape. -/
def hexQuad (n : Nat) : List Char :=
  [hexDigitChar ((n >>> 12) &&& 15), hexDigitChar ((n >>> 8) &&& 15),
   hexDigitChar ((n >>> 4) &&& 15), hexDigitChar (n &&& 15)]

/-- One character of `json.dumps` output with `ensure_ascii=True`:
named short escapes, `\\u` escapes for other control or non-ASCII
characters (surrogate pairs above `0xFFFF`), else the character itself. -/
def escChar (c : Char) : List Char :=
  if c = '"' then ['\\', '"']
  else if c = '\\' then ['\\', '\\']
  else if c = '\n' then ['\\', 'n']
  else if c = '\r' then ['\\', 'r']
  else if c = '\t' then ['\\', 't']
  else if c.toNat = 8 then ['\\', 'b']
  else if c.toNat = 12 then ['\\', 'f']
  else if c.toNat < 0x20 || 0x7f ≤ c.toNat then
    if c.toNat < 0x10000 then '\\' :: 'u' :: hexQuad c.toNat
    else
      let m := c.toNat - 0x10000
      ('\\' :: 'u' :: hexQuad (0xD800 + (m >>> 10))) ++
        ('\\' :: 'u' :: hexQuad (0xDC00 + (m &&& 0x3FF)))
  else [c]

/-- Escaping of a whole string body, as `json.dumps` does it. -/
def escStr : List Char → List Char
  | [] => []
  | c :: cs => escChar c ++ escStr cs

mutual

/-- Model of `json.dumps` with CPython's default separators `", "` and `": "`
and `ensure_ascii=True`. -/
def dumpJson : Json → List Char
  | .null => ['n', 'u', 'l', 'l']
  | .bool b => if b then ['t', 'r', 'u', 'e'] else ['f', 'a', 'l', 's', 'e']
  | .num i => intChars i
  | .str s => '"' :: (escStr s ++ ['"'])
  | .arr [] => ['[', ']']
  | .arr (e :: es) => '[' :: ((dumpJson e ++ dumpMoreElems es) ++ [']'])
  | .obj [] => ['{', '}']
  | .obj (f :: fs) => '{' :: ((dumpField f ++ dumpMoreFields fs) ++ ['}'])

/-- Remaining array elements, each preceded by `", "`. -/
def dumpMoreElems : List Json → List Char
  | [] => []
  | e :: es => ',' :: ' ' :: (dumpJson e ++ dumpMoreElems es)

/-- One `"key": value` object member. -/
def dumpField : List Char × Json → List Char
  | (k, v) => ('"' :: (escStr k ++ ['"'])) ++ ':' :: ' ' :: dumpJson v

/-- Remaining object members, each preceded by `", "`. -/
def dumpMoreFields : List (List Char × Json) → List Char
  | [] => []
  | f :: fs => ',' :: ' ' :: (dumpField f ++ dumpMoreFields fs)

end

/-- JSON whitespace accepted by `json.loads`. -/
def isJsonWs (c : Char) : Bool := c = ' ' || c = '\t' || c = '\n' || c = '\r'

/-- Drop leading JSON whitespace. -/
def dropWs : List Char → List Char
  | [] => []
  | c :: cs => if isJsonWs c then dropWs cs else c :: cs

/-- ASCII decimal digit test. -/
def isDigitCh (c : Char) : Bool := 48 ≤ c.toNat && c.toNat ≤ 57

/-- Split a maximal run of leading digits from the rest. -/
def takeDigits : List Char → List Char × List Char
  | [] => ([], [])
  | c :: cs =>
    if isDigitCh c then
      let (d, r) := takeDigits cs
      (c :: d, r)
    else ([], c :: cs)

/-- Value of a digit run. -/
def digitsVal (ds : List Char) : Nat := ds.foldl (fun a c => 10 * a + (c.toNat - 48)) 0

/-- Parse a JSON integer literal (optional `-`, no leading zeros). -/
def parseNum (cs : List Char) : Option (Json × List Char) :=
  match cs with
  | [] => none
  | c :: r =>
    let pr := if c = '-' then (true, r) else (false, c :: r)
    let ds := (takeDigits pr.2).1
    let rest := (takeDigits pr.2).2
    match ds with
    | [] => none
    | [d] =>
      some (.num (if pr.1 then -((d.toNat - 48 : Nat) : Int)
                  else ((d.toNat - 48 : Nat) : Int)), rest)
    | d :: _ :: _ =>
      if d = '0' then none
      else some (.num (if pr.1 then -((digitsVal ds : Nat) : Int)
                       else ((digitsVal ds : Nat) : Int)), rest)

/-- Value of one hex digit character, if any. -/
def hexDigitVal (c : Char) : Option Nat :=
  if 48 ≤ c.toNat && c.toNat ≤ 57 then some (c.toNat - 48)
  else if 97 ≤ c.toNat && c.toNat ≤ 102 then some (c.toNat - 87)
  else if 65 ≤ c.toNat && c.toNat ≤ 70 then some (c.toNat - 55)
  else none

/-- Parse exactly four hex digits. -/
def parse4Hex : List Char → Option (Nat × List Char)
  | a :: b :: c :: d :: rest =>
    match hexDigitVal a, hexDigitVal b, hexDigitVal c, hexDigitVal d with
    | some x, some y, some z, some w => some (((x * 16 + y) * 16 + z) * 16 + w, rest)
    | _, _, _, _ => none
  | _ => none

/-- Decode of a single-character JSON escape. -/
def escDecode (c : Char) : Option Char :=
  if c = '"' then some '"'
  else if c = '\\' then some '\\'
  else if c = '/' then some '/'
  else if c = 'b' then some (Char.ofNat 8)
  else if c = 'f' then some (Char.ofNat 12)
  else if c = 'n' then some '\n'
  else if c = 'r' then some '\r'
  else if c = 't' then some '\t'
  else none

/-- Insert with Python `dict` semantics: an existing key keeps its position
but takes the new value; a new key is appended. -/
def dictInsert : List (List Char × Json) → List Char → Json → List (List Char × Json)
  | [], k, v => [(k, v)]
  | (k0, v0) :: rest, k, v =>
    if k0 = k then (k0, v) :: rest else (k0, v0) :: dictInsert rest k v

mutual

/-- Parse one JSON value (recursive descent, fuel-based so that it
reduces; dispatch on the first non-whitespace character, as CPython's
scanner does). -/
def pVal : Nat → List Char → Option (Json × List Char)
  | 0, _ => none
  | fuel + 1, cs =>
    match dropWs cs with
    | [] => none
    | c :: rest =>
      if c = '{' then
        match dropWs rest with
        | [] => none
        | c2 :: r2 => if c2 = '}' then some (.obj [], r2) else pMembers fuel (c2 :: r2) []
      else if c = '[' then
        match dropWs rest with
        | [] => none
        | c2 :: r2 => if c2 = ']' then some (.arr [], r2) else pElems fuel (c2 :: r2) []
      else if c = '"' then (pStr fuel rest).map (fun p => (.str p.1, p.2))
      else if c = 't' then
        match rest with
        | 'r' :: 'u' :: 'e' :: r => some (.bool true, r)
        | _ => none
      else if c = 'f' then
        match rest with
        | 'a' :: 'l' :: 's' :: 'e' :: r => some (.bool false, r)
        | _ => none
      else if c = 'n' then
        match rest with
        | 'u' :: 'l' :: 'l' :: r => some (.null, r)
        | _ => none
      else parseNum (c :: rest)

/-- Parse a string body after the opening quote, decoding escapes
(surrogate pairs combined as CPython does). -/
def pStr : Nat → List Char → Option (List Char × List Char)
  | 0, _ => none
  | fuel + 1, cs =>
    match cs with
    | [] => none
    | c :: rest =>
      if c = '"' then some ([], rest)
      else if c = '\\' then
        match rest with
        | [] => none
        | e :: rest1 =>
          if e = 'u' then
            match parse4Hex rest1 with
            | none => none
            | some (n, rest2) =>
              if 0xD800 ≤ n && n < 0xDC00 then
                match rest2 with
                | '\\' :: 'u' :: rest3 =>
                  match parse4Hex rest3 with
                  | some (lo, rest4) =>
                    if 0xDC00 ≤ lo && lo < 0xE000 then
                      (pStr fuel rest4).map (fun p =>
                        (Char.ofNat (0x10000 + ((n - 0xD800) <<< 10) + (lo - 0xDC00)) :: p.1, p.2))
                    else (pStr fuel rest2).map (fun p => (Char.ofNat n :: p.1, p.2))
                  | none => (pStr fuel rest2).map (fun p => (Char.ofNat n :: p.1, p.2))
                | _ => (pStr fuel rest2).map (fun p => (Char.ofNat n :: p.1, p.2))
              else (pStr fuel rest2).map (fun p => (Char.ofNat n :: p.1, p.2))
          else
            match escDecode e with
            | some d => (pStr fuel rest1).map (fun p => (d :: p.1, p.2))
            | none => none
      else if c.toNat < 0x20 then none
      else (pStr fuel rest).map (fun p => (c :: p.1, p.2))

/-- Parse object members from the first key onwards. -/
def pMembers : Nat → List Char → List (List Char × Json) → Option (Json × List Char)
  | 0, _, _ => none
  | fuel + 1, cs, acc =>
    match dropWs cs with
    | '"' :: rest =>
      match pStr fuel rest with
      | none => none
      | some (k, rest1) =>
        match dropWs rest1 with
        | ':' :: rest2 =>
          match pVal fuel rest2 with
          | none => none
          | some (v, rest3) =>
            match dropWs rest3 with
            | ',' :: rest4 => pMembers fuel rest4 (dictInsert acc k v)
            | '}' :: rest4 => some (.obj (dictInsert acc k v), rest4)
            | _ => none
        | _ => none
    | _ => none

/-- Parse array elements from the first element onwards. -/
def pElems : Nat → List Char → List Json → Option (Json × List Char)
  | 0, _, _ => none
  | fuel + 1, cs, acc =>
    match pVal fuel cs with
    | none => none
    | some (v, rest) =>
      match dropWs rest with
      | ',' :: rest1 => pElems fuel rest1 (acc ++ [v])
      | ']' :: rest1 => some (.arr (acc ++ [v]), rest1)
      | _ => none

end

/-- Model of `json.loads`: parse one value, allow trailing whitespace only. -/
def jsonLoads (cs : List Char) : Option Json :=
  match pVal (4 * cs.length + 16) cs with
  | some (j, rest) => if dropWs rest = [] then some j else none
  | none => none

/-- The envelope as this client constructs it for sending
(`WsMessage` in `comm.py`, with the fields of its type annotations:
`timestamp: int`, `message_id: str`, `message: dict[str, Any]`). -/
structure WsMessage where
  timestamp : Int
  message_id : List Char
  message : List (List Char × Json)

/-- Model of `WsMessage.to_dict`: the dict `{"timestamp": ..., "message_id": ...,
"message": ...}` in that insertion order, as a JSON value. -/
def wsMessageToJson (m : WsMessage) : Json :=
  .obj [("timestamp".data, .num m.timestamp),
        ("message_id".data, .str m.message_id),
        ("message".data, .obj m.message)]

/-- Serialized envelope: `json.dumps(message.to_dict())`. -/
def envelopeChars (m : WsMessage) : List Char := dumpJson (wsMessageToJson m)

/-- Model of `WebSocketClient.sign_message`: payload, dot, signature, where
`signature = hmac.new(secret, payload.encode(), sha256).hexdigest()`. -/
def sign_message (secret : List Nat) (m : WsMessage) : List Char :=
  let payload := envelopeChars m
  payload ++ '.' :: hmacHexChars secret (utf8Encode payload)

/-- Python `str.split(".")` (no maxsplit): every dot separates. -/
def splitDot : List Char → List (List Char)
  | [] => [[]]
  | c :: rest =>
    if c = '.' then [] :: splitDot rest
    else
      match splitDot rest with
      | h :: t => (c :: h) :: t
      | [] => [[c]]

/-- The distinguishable rejection branches of `verify_message` (the code
returns `None` on each, with a distinct log message per branch):
`malformedFrame` = "Invalid message format" (`len(parts) != 2`),
`badSignature` = "Invalid signature", `malformedPayload` = "Failed to parse
message" (`JSONDecodeError`/`KeyError`), `expired` = "Message expired". -/
inductive VerifyErrKind where
  | malformedFrame
  | badSignature
  | malformedPayload
  | expired
deriving DecidableEq

/-- The envelope as `verify_message` reconstructs it: the constructor
`WsMessage(message=frame_dict["message"], ...)` performs no type checks,
so `message_id` and `message` are arbitrary parsed JSON; the timestamp is
numeric because the expiry arithmetic would otherwise raise. -/
structure RecvFrame where
  timestamp : Int
  message_id : Json
  message : Json

/-- Result of `verify_message`: a verified frame, a typed rejection
(`return None` plus a log), or `crash` — an exception that is *not* caught
inside `verify_message` (`TypeError` when the parsed payload is not a dict,
or when its `"timestamp"` entry is not numeric) and propagates to the
caller. -/
inductive VerifyOutcome where
  | ok (f : RecvFrame)
  | invalid (k : VerifyErrKind)
  | crash

/-- Python arithmetic `now - ts` succeeds for `int` and `bool` (a `bool`
is an `int` subclass valued 0 or 1); any other JSON value raises. -/
def jsonIntLike : Json → Option Int
  | .num n => some n
  | .bool b => some (if b then 1 else 0)
  | _ => none

/-- Python `dict` lookup on the parse result (keys are unique because the
parser collapses duplicates with `dictInsert`). -/
def pyLookup (kvs : List (List Char × Json)) (k : List Char) : Option Json :=
  match kvs with
  | [] => none
  | (k0, v) :: rest => if k0 = k then some v else pyLookup rest k

/-- Stage of `verify_message` after the signature check: `json.loads` the
payload and build the `WsMessage` from `frame_dict["message"]`,
`frame_dict["timestamp"]`, `frame_dict["message_id"]`
(`JSONDecodeError`/`KeyError` are caught and logged, a non-dict parse
result or non-numeric timestamp raises `TypeError` uncaught), then reject
when `abs(now - timestamp) > 30`. -/
def verifySigned (payload : List Char) (now : Int) : VerifyOutcome :=
  match jsonLoads payload with
  | none => .invalid .malformedPayload
  | some (.obj kvs) =>
    match pyLookup kvs "message".data, pyLookup kvs "timestamp".data,
          pyLookup kvs "message_id".data with
    | some msg, some tsj, some mid =>
      match jsonIntLike tsj with
      | some ts =>
        if 30 < (now - ts).natAbs then .invalid .expired
        else .ok ⟨ts, mid, msg⟩
      | none => .crash
    | _, _, _ => .invalid .malformedPayload
  | some _ => .crash

/-- Stage of `verify_message` on the two split parts: recompute the HMAC
hexdigest over the payload part and compare with the signature part. -/
def verifyParts (secret : List Nat) (payload signature : List Char) (now : Int) :
    VerifyOutcome :=
  if hmacHexChars secret (utf8Encode payload) = signature then verifySigned payload now
  else .invalid .badSignature

/-- Model of `WebSocketClient.verify_message(data)`, with `now = int(time.time())`
passed explicitly: split on `"."` and require exactly two parts
(`len(parts) != 2` → malformed frame), then check the signature and parse
(the two stages above, inlined in the source in this order). -/
def verify_message (secret : List Nat) (data : List Char) (now : Int) : VerifyOutcome :=
  match splitDot data with
  | [payload, signature] => verifyParts secret payload signature now
  | _ => .invalid .malformedFrame

/-- The observable state of a `websockets` connection object held in
`self.ws`: `ws.send` succeeds iff the connection is still open, and raises
(`ConnectionClosed`) otherwise. -/
structure WsHandle where
  isOpen : Bool

/-- The fields of `WebSocketClient` that `send_message` consults. `ws` is
`None` until the first `websockets.connect` succeeds and is never set back
to `None` afterwards; `connected` is the boolean the supervisor flips. -/
structure ConnView where
  ws : Option WsHandle
  connected : Bool

/-- How a `send_message` call can fail: `notConnected` is the
`RuntimeError("WebSocket not connected")` raised when `self.ws` is `None`
(before any frame is built or written); `transportErr` is the exception
raised by `self.ws.send` on a dead connection. -/
inductive SendErr where
  | notConnected
  | transportErr
deriving DecidableEq

/-- Model of `WebSocketClient.send_message(message)` with the wall clock and the
fresh `uuid4` id passed explicitly: guard `if not self.ws`, build a fresh
envelope, sign it, write it. The `.ok` value is the frame written to the
transport; on `.error` nothing is delivered. -/
def send_message (v : ConnView) (secret : List Nat) (payload : List (List Char × Json))
    (now : Int) (mid : List Char) : Except SendErr (List Char) :=
  match v.ws with
  | none => .error .notConnected
  | some h =>
    let frame := sign_message secret ⟨now, mid, payload⟩
    if h.isOpen then .ok frame else .error .transportErr

/-- Observable effects of one `handle_message` call. `.forward` is the
vocabulary for handing a payload to an application-level consumer through a
subscription point — the spec's delivery of `notification` payloads; the
code below shows which of these effects the source actually produces. -/
inductive Effect where
  | send (payload : List (List Char × Json))
  | logNotification (data : Json)
  | logPong (data : Json)
  | logUnknown
  | forward (data : Json)

/-- Result of `handle_message`: a list of effects, or `crash` when the call
raises (`frame.message` not a dict, so `msg.get` raises `AttributeError`;
nothing in `listen`'s loop body catches it). -/
inductive HandleRes where
  | effects (effs : List Effect)
  | crash

/-- Recognizer for `Effect.send`. -/
def isSendEffect : Effect → Bool
  | .send _ => true
  | _ => false

/-- Recognizer for `Effect.forward`. -/
def isForwardEffect : Effect → Bool
  | .forward _ => true
  | _ => false

/-- The dispatch of `handle_message` on a dict message body, by
`msg.get("type")`: `ping` → reply with a `pong` envelope carrying the same
`id` (via `send_message`); `notification` → `logger.info` of
`msg.get("data")` only; `pong` → `logger.info` of `msg.get("id")`;
anything else (including a missing or non-string type) → log only. -/
def dispatchObj (kvs : List (List Char × Json)) : List Effect :=
  match pyLookup kvs "type".data with
  | some (.str t) =>
    if t = "ping".data then
      [.send [("type".data, .str "pong".data),
              ("id".data, (pyLookup kvs "id".data).getD .null)]]
    else if t = "notification".data then
      [.logNotification ((pyLookup kvs "data".data).getD .null)]
    else if t = "pong".data then
      [.logPong ((pyLookup kvs "id".data).getD .null)]
    else [.logUnknown]
  | _ => [.logUnknown]

/-- Model of `WebSocketClient.handle_message(frame)`: every branch on a dict message
is a finite effect list; a non-dict `frame.message` makes `msg.get` raise
`AttributeError` (uncaught). -/
def handle_message (msg : Json) : HandleRes :=
  match msg with
  | .obj kvs => .effects (dispatchObj kvs)
  | _ => .crash

/-- One event of the `async for message in self.ws` iteration: a delivered
text frame, the transport signalling closure (`ConnectionClosed`), or an
I/O error raised by the iterator. -/
inductive InEv where
  | frame (raw : List Char)
  | closed
  | ioError

/-- Trace of the receive loop, one entry per processed frame: a frame
dropped by `verify_message` (log "Received invalid message", loop
continues) or a verified frame handled with the given effects. -/
inductive LEv where
  | dropped (k : VerifyErrKind)
  | handled (effs : List Effect)

/-- Why the receive loop stopped consuming events. `listen` itself always
*returns* normally — both `except` arms just log — so every one of these is
reported to `run` as a normal end of the sequence. `handlerCrash` records
the path where an exception from the loop body (an uncaught `TypeError`
out of `verify_message`, an `AttributeError` out of `handle_message`, or a
send failure of the `pong` reply) aborts the iteration. -/
inductive LoopEnd where
  | transportClosed
  | transportError
  | handlerCrash
  | inputExhausted
deriving DecidableEq

/-- Model of `WebSocketClient.listen()` over an explicit script of iterator events,
with `wsOpen` the state of the connection consulted by the `pong` reply. -/
def listenGo (secret : List Nat) (now : Int) (wsOpen : Bool) :
    List InEv → List LEv × LoopEnd
  | [] => ([], .inputExhausted)
  | .closed :: _ => ([], .transportClosed)
  | .ioError :: _ => ([], .transportError)
  | .frame raw :: rest =>
    match verify_message secret raw now with
    | .invalid k =>
      let (t, e) := listenGo secret now wsOpen rest
      (.dropped k :: t, e)
    | .crash => ([], .handlerCrash)
    | .ok f =>
      match handle_message f.message with
      | .crash => ([], .handlerCrash)
      | .effects effs =>
        if effs.any isSendEffect && !wsOpen then ([], .handlerCrash)
        else
          let (t, e) := listenGo secret now wsOpen rest
          (.handled effs :: t, e)

/-- The supervisor-visible fields of `WebSocketClient`: the `running` flag,
the `connected` boolean, and `reconnect_delay` (seconds). `min` delay is
the literal 5 of `__init__`/`connect`, `max_reconnect_delay` the literal
30. -/
structure SupSt where
  running : Bool
  connected : Bool
  delay : Nat
deriving DecidableEq

/-- State after `run()` has set `self.running = True`: `reconnect_delay`
still holds its `__init__` value 5. -/
def initSt : SupSt := ⟨true, false, 5⟩

/-- Outcome of one `try: await self.connect(); await self.listen()` block:
`fail` — `websockets.connect` raised (state untouched); `authFail` — the
transport opened (`connected = True`, delay reset to 5) but sending the
`auth` envelope raised; `ok` — connect and auth succeeded and `listen`
eventually returned. -/
inductive Att where
  | fail
  | authFail
  | ok
deriving DecidableEq

/-- When, if at all, a collaborator calls `stop()` during the cycle:
never, while the `try` block runs, or while `asyncio.sleep` of the backoff
wait is pending. -/
inductive StopReq where
  | noStop
  | duringTry
  | duringWait
deriving DecidableEq

/-- Observable trace of the supervisor loop: a connect attempt starting,
a completed `asyncio.sleep(d)` backoff wait of its full duration `d`
(nothing in the code cancels the sleep), and the give-up path
(log "Couldn't establish connection! Discarding attempt completely!"
followed by the internal `stop()`). -/
inductive TraceEv where
  | attempt
  | wait (d : Nat)
  | abandoned
deriving DecidableEq

/-- Effect of the `try` block on the supervisor state: `connect()` sets
`self.connected = True` and resets `self.reconnect_delay = 5` *before*
`send_message({"type": "auth"})`, so the reset survives an auth-send
failure. -/
def tryPhase (s : SupSt) (a : Att) : SupSt :=
  match a with
  | .fail => s
  | .authFail => { s with connected := true, delay := 5 }
  | .ok => { s with connected := true, delay := 5 }

/-- One iteration of the `while self.running` body of `run()`: the `try`
block, then — when still running — `self.connected = False`, the full
backoff sleep, and the backoff update: double (capped at 30) when
`reconnect_delay < 30`, otherwise the give-up `stop()`. A `stop()` arriving
during the sleep clears `running`/`connected` but does not shorten the
sleep; the update `if` still executes afterwards, and the `while` condition
then ends the loop. -/
def iterCycle (s : SupSt) (a : Att) (r : StopReq) : List TraceEv × SupSt :=
  let s1 := tryPhase s a
  let s2 := if r = .duringTry then { s1 with running := false, connected := false } else s1
  if s2.running then
    let s3 := { s2 with connected := false }
    let s4 := if r = .duringWait then { s3 with running := false, connected := false } else s3
    if s4.delay < 30 then
      ([.wait s3.delay], { s4 with delay := min (s4.delay * 2) 30 })
    else
      ([.wait s3.delay, .abandoned], { s4 with running := false, connected := false })
  else ([], s2)

/-- Model of `run()` over a finite script of cycle events: each script entry is
consumed by one `while self.running` iteration; the loop stops consuming
as soon as `running` is cleared. `.attempt` marks `websockets.connect`
being called. -/
def runScript (s : SupSt) : List (Att × StopReq) → List TraceEv × SupSt
  | [] => ([], s)
  | (a, r) :: rest =>
    if s.running then
      let (evs, s1) := iterCycle s a r
      let (t, s2) := runScript s1 rest
      (.attempt :: (evs ++ t), s2)
    else ([], s)

/-- The backoff sleep durations of a trace, in order. -/
def waitsOf (t : List TraceEv) : List Nat :=
  t.filterMap fun e =>
    match e with
    | .wait d => some d
    | _ => none

/-- Number of connect attempts in a trace. -/
def countAttempts (t : List TraceEv) : Nat :=
  (t.filter fun e => e = TraceEv.attempt).length

/-- Number of give-up events in a trace. -/
def countAbandoned (t : List TraceEv) : Nat :=
  (t.filter fun e => e = TraceEv.abandoned).length

/-- Modelled from the spec: the Liveness Monitor of §4.3 is not part of
`src/` — the only liveness mechanism in `comm.py` is the transport
library's keepalive configured by `websockets.connect(..., ping_interval=60,
ping_timeout=10)`. Per the spec it "tracks `lastActivity`", updated
whenever any inbound traffic is observed. -/
structure LivenessMonitor where
  lastActivity : Int
  heartbeatTimeout : Int

/-- Modelled from the spec: record an observation of inbound activity. -/
def observeActivity (m : LivenessMonitor) (now : Int) : LivenessMonitor :=
  { m with lastActivity := now }

/-- Modelled from the spec: the periodic check — "if `now - lastActivity >
heartbeatTimeout` ... it requests the Connection Session to close". -/
def monitorRequestsClose (m : LivenessMonitor) (now : Int) : Bool :=
  m.heartbeatTimeout < now - m.lastActivity

/-- A character list free of the frame delimiter. -/
def noDot (cs : List Char) : Bool := cs.all (fun c => c != '.')

/-- Byte encoding of the sample shared secret `"k"`. -/
def sampleSecret : List Nat := utf8Encode "k".data

/-- A well-behaved sample envelope (its serialization has no `.`). -/
def sampleEnv : WsMessage := ⟨100, "id1".data, [("type".data, Json.str "auth".data)]⟩

/-- An envelope whose payload contains a `.` inside a string value. -/
def dottedEnv : WsMessage := ⟨100, "id1".data, [("t".data, Json.str "a.b".data)]⟩

/-- A sample verified inbound `notification` message body. -/
def notifMsg : Json :=
  .obj [("type".data, .str "notification".data), ("data".data, .str "x".data)]

/-- A frame whose payload is valid JSON with a valid signature but not an
object: `"[]"` followed by its genuine HMAC hexdigest under the sample
secret. -/
def crashFrame : List Char :=
  "[]".data ++ '.' :: hmacHexChars sampleSecret (utf8Encode "[]".data)

/-- No two fields of an object layer share a key (as in a Python dict). -/
def keysFresh : List (List Char × Json) → Bool
  | [] => true
  | (k, _) :: rest => !(rest.any fun p => p.1 == k) && keysFresh rest

mutual

/-- Well-formed JSON value: every object layer has pairwise distinct keys.
Values serialized from Python objects satisfy this by construction. -/
def jsonWF : Json → Bool
  | .null => true
  | .bool _ => true
  | .num _ => true
  | .str _ => true
  | .arr es => jsonWFList es
  | .obj fs => keysFresh fs && jsonWFFields fs

/-- All elements well-formed. -/
def jsonWFList : List Json → Bool
  | [] => true
  | e :: es => jsonWF e && jsonWFList es

/-- All field values well-formed. -/
def jsonWFFields : List (List Char × Json) → Bool
  | [] => true
  | (_, v) :: fs => jsonWF v && jsonWFFields fs

end

/-- Characters at which a serialized JSON value may legitimately end:
end of input, or a separator/closer written by the serializer. -/
def stopOk : List Char → Bool
  | [] => true
  | c :: _ => c = ',' || c = ']' || c = '}'

/-- Reference big-endian decimal digits (proof-side twin of `natChars`). -/
def digitsBE (n : Nat) : List Char :=
  if h : n < 10 then [Char.ofNat (48 + n)]
  else digitsBE (n / 10) ++ [Char.ofNat (48 + n % 10)]
termination_by n
decreasing_by exact Nat.div_lt_self (by omega) (by omega)

/-! ## Helper lemmas -/

theorem runScript_of_not_running (s : SupSt) (l : List (Att × StopReq))
    (h : s.running = false) : runScript s l = ([], s) := by
  cases l with
  | nil => rfl
  | cons p rest => cases p with | mk a r => simp [runScript, h]

theorem waitsOf_append (t₁ t₂ : List TraceEv) :
    waitsOf (t₁ ++ t₂) = waitsOf t₁ ++ waitsOf t₂ :=
  List.filterMap_append t₁ t₂ _

theorem countAttempts_append (t₁ t₂ : List TraceEv) :
    countAttempts (t₁ ++ t₂) = countAttempts t₁ + countAttempts t₂ := by
  simp [countAttempts, List.filter_append]

theorem splitDot_of_noDot {p : List Char} (h : noDot p = true) : splitDot p = [p] := by
  induction p with
  | nil => rfl
  | cons c cs ih =>
    simp [noDot, List.all_cons] at h
    obtain ⟨hc, hcs⟩ := h
    have hne : ¬ c = '.' := by simpa using hc
    simp [splitDot, hne, ih (by simpa [noDot] using hcs)]

theorem splitDot_sep {p q : List Char} (hp : noDot p = true) (hq : noDot q = true) :
    splitDot (p ++ '.' :: q) = [p, q] := by
  induction p with
  | nil => simp [splitDot, splitDot_of_noDot hq]
  | cons c cs ih =>
    simp [noDot, List.all_cons] at hp
    obtain ⟨hc, hcs⟩ := hp
    have hne : ¬ c = '.' := by simpa using hc
    simp [splitDot, hne, ih (by simpa [noDot] using hcs)]

theorem hexDigitChar_ne_dot : ∀ n, n < 16 → hexDigitChar n ≠ '.' := by decide

theorem bytesToHex_noDot {bs : List Nat} (h : ∀ b ∈ bs, b ≤ 255) :
    noDot (bytesToHex bs) = true := by
  induction bs with
  | nil => rfl
  | cons b rest ih =>
    have hb : b ≤ 255 := h b (List.mem_cons_self b rest)
    have h1 : b / 16 < 16 := by omega
    have h2 : b % 16 < 16 := Nat.mod_lt _ (by omega)
    simp only [bytesToHex, List.foldr_cons, noDot, List.all_cons, Bool.and_eq_true]
    refine ⟨by simpa using hexDigitChar_ne_dot _ h1, by simpa using hexDigitChar_ne_dot _ h2, ?_⟩
    simpa [noDot, bytesToHex] using ih (fun x hx => h x (List.mem_cons_of_mem _ hx))

theorem be32_le (w : Nat) : ∀ b ∈ be32 w, b ≤ 255 := by
  intro b hb
  simp [be32] at hb
  rcases hb with h | h | h | h <;> subst h <;> exact Nat.and_le_right

theorem sha256_bytes_le (m : List Nat) : ∀ b ∈ sha256 m, b ≤ 255 := by
  show ∀ b ∈ List.foldr (fun w acc => be32 w ++ acc) [] _, b ≤ 255
  generalize (toBlocks (toWords (sha256Pad m))).foldl sha256Block sha256H0 = ws
  induction ws with
  | nil => intro b hb; simp at hb
  | cons w rest ih =>
    intro b hb
    simp only [List.foldr_cons, List.mem_append] at hb
    rcases hb with h | h
    · exact be32_le w b h
    · exact ih b h

theorem hmacHex_noDot (key m : List Nat) : noDot (hmacHexChars key m) = true :=
  bytesToHex_noDot (by
    show ∀ b ∈ hmacSha256 key m, b ≤ 255
    simp only [hmacSha256]
    exact sha256_bytes_le _)

theorem charToNat_ofNat {n : Nat} (h : n.isValidChar) : (Char.ofNat n).toNat = n := by
  unfold Char.ofNat
  rw [dif_pos h]
  rfl

theorem charToNat_ofNat_small {n : Nat} (h : n < 55296) : (Char.ofNat n).toNat = n :=
  charToNat_ofNat (Or.inl h)

theorem digitsBE_lt {n : Nat} (h : n < 10) : digitsBE n = [Char.ofNat (48 + n)] := by
  rw [digitsBE, dif_pos h]

theorem digitsBE_ge {n : Nat} (h : ¬ n < 10) :
    digitsBE n = digitsBE (n / 10) ++ [Char.ofNat (48 + n % 10)] := by
  conv_lhs => rw [digitsBE]
  rw [dif_neg h]

theorem natCharsAux_eq (fuel : Nat) : ∀ n acc, n < fuel →
    natCharsAux fuel n acc = digitsBE n ++ acc := by
  induction fuel with
  | zero => intro n acc h; omega
  | succ fuel ih =>
    intro n acc h
    by_cases hn : n < 10
    · rw [natCharsAux, if_pos hn, digitsBE_lt hn]
      rfl
    · rw [natCharsAux, if_neg hn, ih (n / 10) _ (by omega), digitsBE_ge hn,
          List.append_assoc]
      rfl

theorem natChars_eq (n : Nat) : natChars n = digitsBE n := by
  rw [natChars, natCharsAux_eq (n + 1) n [] (by omega), List.append_nil]

theorem digitsBE_digits (n : Nat) : ∀ c ∈ digitsBE n, isDigitCh c = true := by
  induction n using Nat.strong_induction_on with
  | _ n ih =>
    intro c hc
    by_cases hn : n < 10
    · rw [digitsBE_lt hn] at hc
      simp at hc
      subst hc
      simp only [isDigitCh, charToNat_ofNat_small (show 48 + n < 55296 by omega),
        Bool.and_eq_true, decide_eq_true_eq]
      omega
    · rw [digitsBE_ge hn] at hc
      rcases List.mem_append.mp hc with h | h
      · exact ih (n / 10) (Nat.div_lt_self (by omega) (by omega)) c h
      · simp at h
        subst h
        simp only [isDigitCh, charToNat_ofNat_small (show 48 + n % 10 < 55296 by omega),
          Bool.and_eq_true, decide_eq_true_eq]
        omega

theorem digitsVal_append (xs : List Char) (c : Char) :
    digitsVal (xs ++ [c]) = 10 * digitsVal xs + (c.toNat - 48) := by
  simp [digitsVal, List.foldl_append]

theorem digitsVal_digitsBE (n : Nat) : digitsVal (digitsBE n) = n := by
  induction n using Nat.strong_induction_on with
  | _ n ih =>
    by_cases hn : n < 10
    · rw [digitsBE_lt hn]
      simp [digitsVal, charToNat_ofNat_small (show 48 + n < 55296 by omega)]
    · rw [digitsBE_ge hn, digitsVal_append,
          ih (n / 10) (Nat.div_lt_self (by omega) (by omega)),
          charToNat_ofNat_small (show 48 + n % 10 < 55296 by omega)]
      omega

theorem digitsBE_ne_nil (n : Nat) : digitsBE n ≠ [] := by
  by_cases hn : n < 10
  · rw [digitsBE_lt hn]; simp
  · rw [digitsBE_ge hn]; simp

theorem digitsBE_head_ne_zero (n : Nat) (h : 1 ≤ n) :
    ∃ d t, digitsBE n = d :: t ∧ d ≠ '0' := by
  induction n using Nat.strong_induction_on with
  | _ n ih =>
    by_cases hn : n < 10
    · refine ⟨Char.ofNat (48 + n), [], digitsBE_lt hn, fun hc => ?_⟩
      have h2 := congrArg Char.toNat hc
      rw [charToNat_ofNat_small (show 48 + n < 55296 by omega)] at h2
      have h3 : ('0' : Char).toNat = 48 := by decide
      omega
    · obtain ⟨d, t, hdt, hd⟩ := ih (n / 10) (Nat.div_lt_self (by omega) (by omega)) (by omega)
      exact ⟨d, t ++ [Char.ofNat (48 + n % 10)], by rw [digitsBE_ge hn, hdt]; rfl, hd⟩

theorem digitsBE_two_of_ge_ten (n : Nat) (h : 10 ≤ n) :
    ∃ d d2 t, digitsBE n = d :: d2 :: t ∧ d ≠ '0' := by
  obtain ⟨d, t, hdt, hd⟩ := digitsBE_head_ne_zero (n / 10) (by omega)
  have hsplit : digitsBE n = (d :: t) ++ [Char.ofNat (48 + n % 10)] := by
    rw [digitsBE_ge (by omega), hdt]
  cases t with
  | nil => exact ⟨d, Char.ofNat (48 + n % 10), [], by simpa using hsplit, hd⟩
  | cons x t2 => exact ⟨d, x, t2 ++ [Char.ofNat (48 + n % 10)], by simpa using hsplit, hd⟩

theorem isDigitCh_range {c : Char} (h : isDigitCh c = true) :
    48 ≤ c.toNat ∧ c.toNat ≤ 57 := by
  simpa [isDigitCh, Bool.and_eq_true, decide_eq_true_eq] using h

theorem ne_of_toNat_ne {c d : Char} (h : c.toNat ≠ d.toNat) : c ≠ d :=
  fun he => h (congrArg Char.toNat he)

theorem takeDigits_split (ds : List Char) (rest : List Char)
    (hds : ∀ c ∈ ds, isDigitCh c = true)
    (hrest : ∀ c, rest.head? = some c → isDigitCh c = false) :
    takeDigits (ds ++ rest) = (ds, rest) := by
  induction ds with
  | nil =>
    cases rest with
    | nil => rfl
    | cons c cs =>
      have := hrest c rfl
      simp only [List.nil_append, takeDigits, this]
      rfl
  | cons d ds ih =>
    have hd := hds d (by simp)
    have ih2 := ih (fun c hc => hds c (by simp [hc]))
    simp only [List.cons_append, takeDigits, hd, if_pos, List.append_eq, ih2]

theorem stopOk_head_not_digit {rest : List Char} (h : stopOk rest = true) :
    ∀ c, rest.head? = some c → isDigitCh c = false := by
  intro c hc
  cases rest with
  | nil => simp at hc
  | cons x xs =>
    simp at hc
    subst hc
    simp only [stopOk, Bool.or_eq_true, decide_eq_true_eq] at h
    rcases h with (h | h) | h <;> subst h <;> decide

theorem intChars_nonneg (i : Int) (h : 0 ≤ i) : intChars i = digitsBE i.toNat := by
  rw [intChars, if_neg (by omega), natChars_eq]

theorem intChars_neg (i : Int) (h : i < 0) : intChars i = '-' :: digitsBE i.natAbs := by
  rw [intChars, if_pos h, natChars_eq]

theorem parseNum_digitsBE (n : Nat) (rest : List Char)
    (hrest : ∀ c, rest.head? = some c → isDigitCh c = false) :
    parseNum (digitsBE n ++ rest) = some (.num (n : Int), rest) := by
  have htake := takeDigits_split (digitsBE n) rest (digitsBE_digits n) hrest
  by_cases hn : n < 10
  · rw [digitsBE_lt hn] at htake ⊢
    have hdig : isDigitCh (Char.ofNat (48 + n)) = true :=
      digitsBE_digits n _ (by rw [digitsBE_lt hn]; simp)
    have hne : Char.ofNat (48 + n) ≠ '-' := by
      refine ne_of_toNat_ne ?_
      have := isDigitCh_range hdig
      intro he
      rw [show ('-' : Char).toNat = 45 from by decide] at he
      omega
    simp only [List.singleton_append] at htake
    simp only [List.singleton_append, parseNum, hne, if_neg, if_false, htake]
    rw [charToNat_ofNat_small (by omega)]
    simp [Nat.add_sub_cancel_left]
  · obtain ⟨d, d2, t, hform, hd0⟩ := digitsBE_two_of_ge_ten n (by omega)
    have hdig : isDigitCh d = true := digitsBE_digits n d (by rw [hform]; simp)
    have hne : d ≠ '-' := by
      refine ne_of_toNat_ne ?_
      have := isDigitCh_range hdig
      intro he
      rw [show ('-' : Char).toNat = 45 from by decide] at he
      omega
    rw [hform] at htake ⊢
    simp only [List.cons_append] at htake
    simp only [List.cons_append, parseNum, hne, if_neg, if_false, htake, hd0]
    have hv : digitsVal (d :: d2 :: t) = n := by
      rw [← hform, digitsVal_digitsBE]
    rw [hv]
    simp

theorem parseNum_intChars (i : Int) (rest : List Char)
    (hrest : ∀ c, rest.head? = some c → isDigitCh c = false) :
    parseNum (intChars i ++ rest) = some (.num i, rest) := by
  by_cases hi : 0 ≤ i
  · rw [intChars_nonneg i hi, parseNum_digitsBE i.toNat rest hrest,
        Int.toNat_of_nonneg hi]
  · rw [intChars_neg i (by omega)]
    have hneg : -((i.natAbs : Nat) : Int) = i := by omega
    have htake := takeDigits_split (digitsBE i.natAbs) rest (digitsBE_digits _) hrest
    by_cases hn : i.natAbs < 10
    · rw [digitsBE_lt hn] at htake ⊢
      simp only [List.singleton_append] at htake
      simp +decide only [List.cons_append, List.singleton_append, List.nil_append,
        parseNum, if_true, htake]
      rw [charToNat_ofNat_small (by omega)]
      simp only [Nat.add_sub_cancel_left]
      rw [show ((i.natAbs : Nat) : Int) = -i from by omega]
      simp
    · obtain ⟨d, d2, t, hform, hd0⟩ := digitsBE_two_of_ge_ten i.natAbs (by omega)
      rw [hform] at htake ⊢
      simp only [List.cons_append] at htake
      simp +decide only [List.cons_append, List.nil_append, parseNum, if_true, htake, hd0]
      have hv : digitsVal (d :: d2 :: t) = i.natAbs := by
        rw [← hform, digitsVal_digitsBE]
      rw [hv, show ((i.natAbs : Nat) : Int) = -i from by omega]
      simp

theorem and_15_mod (x : Nat) : x &&& 15 = x % 16 := by
  have := Nat.and_pow_two_sub_one_eq_mod x 4
  norm_num at this
  exact this

theorem and_1023_mod (x : Nat) : x &&& 1023 = x % 1024 := by
  have := Nat.and_pow_two_sub_one_eq_mod x 10
  norm_num at this
  exact this

theorem and_63_mod (x : Nat) : x &&& 63 = x % 64 := by
  have := Nat.and_pow_two_sub_one_eq_mod x 6
  norm_num at this
  exact this

theorem hexDigitVal_hexDigitChar : ∀ k, k < 16 → hexDigitVal (hexDigitChar k) = some k := by decide

theorem charValid (c : Char) : c.toNat < 55296 ∨ (57344 ≤ c.toNat ∧ c.toNat < 1114112) := by
  have h := c.valid
  rcases h with h | ⟨h1, h2⟩
  · left
    exact h
  · right
    exact ⟨h1, h2⟩

theorem parse4Hex_hexQuad (m : Nat) (hm : m < 65536) (rest : List Char) :
    parse4Hex (hexQuad m ++ rest) = some (m, rest) := by
  show parse4Hex (hexDigitChar ((m >>> 12) &&& 15) :: hexDigitChar ((m >>> 8) &&& 15) ::
    hexDigitChar ((m >>> 4) &&& 15) :: hexDigitChar (m &&& 15) :: rest) = some (m, rest)
  have h1 : (m >>> 12) &&& 15 < 16 := by rw [and_15_mod]; omega
  have h2 : (m >>> 8) &&& 15 < 16 := by rw [and_15_mod]; omega
  have h3 : (m >>> 4) &&& 15 < 16 := by rw [and_15_mod]; omega
  have h4 : m &&& 15 < 16 := by rw [and_15_mod]; omega
  simp only [parse4Hex, hexDigitVal_hexDigitChar _ h1, hexDigitVal_hexDigitChar _ h2,
    hexDigitVal_hexDigitChar _ h3, hexDigitVal_hexDigitChar _ h4]
  congr 1
  congr 1
  rw [and_15_mod, and_15_mod, and_15_mod, and_15_mod,
      Nat.shiftRight_eq_div_pow, Nat.shiftRight_eq_div_pow, Nat.shiftRight_eq_div_pow]
  norm_num
  omega

theorem pStr_esc2 (f : Nat) (e d : Char) (X : List Char)
    (he : escDecode e = some d) (he2 : e ≠ 'u') :
    pStr (f + 1) ('\\' :: e :: X) = (pStr f X).map (fun p => (d :: p.1, p.2)) := by
  simp +decide only [pStr, he, he2, if_neg, if_false, if_true]

theorem pStr_u_bmp (f n : Nat) (Y : List Char) (hn16 : n < 65536)
    (hns : ¬ ((55296 ≤ n && n < 56320) = true)) :
    pStr (f + 1) ('\\' :: 'u' :: (hexQuad n ++ Y)) =
      (pStr f Y).map (fun p => (Char.ofNat n :: p.1, p.2)) := by
  simp +decide only [pStr, parse4Hex_hexQuad n hn16, if_neg hns, if_true, if_false]

theorem pStr_u_pair (f : Nat) (hi lo : Nat) (Y : List Char)
    (hh1 : 55296 ≤ hi) (hh2 : hi < 56320) (hl1 : 56320 ≤ lo) (hl2 : lo < 57344)
    (hhi16 : hi < 65536) (hlo16 : lo < 65536) :
    pStr (f + 1) ('\\' :: 'u' :: (hexQuad hi ++ ('\\' :: 'u' :: (hexQuad lo ++ Y)))) =
      (pStr f Y).map (fun p =>
        (Char.ofNat (65536 + ((hi - 55296) <<< 10) + (lo - 56320)) :: p.1, p.2)) := by
  have hs1 : ((55296 ≤ hi && hi < 56320) = true) := by
    simp only [Bool.and_eq_true, decide_eq_true_eq]
    omega
  have hs2 : ((56320 ≤ lo && lo < 57344) = true) := by
    simp only [Bool.and_eq_true, decide_eq_true_eq]
    omega
  simp +decide only [pStr, parse4Hex_hexQuad hi hhi16, parse4Hex_hexQuad lo hlo16,
    if_pos hs1, if_pos hs2, if_true, if_false]

theorem pStr_plain (f : Nat) (c : Char) (Y : List Char)
    (h1 : c ≠ '"') (h2 : c ≠ '\\') (h3 : ¬ c.toNat < 32) :
    pStr (f + 1) (c :: Y) = (pStr f Y).map (fun p => (c :: p.1, p.2)) := by
  simp only [pStr, h1, h2, if_neg, if_false]
  rw [if_neg h3]

theorem escStr_cons (c : Char) (cs : List Char) :
    escStr (c :: cs) = escChar c ++ escStr cs := rfl

theorem pStr_escStr (s : List Char) : ∀ fuel rest, (escStr s).length < fuel →
    pStr fuel (escStr s ++ '"' :: rest) = some (s, rest) := by
  induction s with
  | nil =>
    intro fuel rest hf
    match fuel, hf with
    | f + 1, _ => rfl
  | cons c cs ih =>
    intro fuel rest hf
    obtain ⟨f, rfl⟩ : ∃ f, fuel = f + 1 := ⟨fuel - 1, by omega⟩
    have hlen : (escStr (c :: cs)).length = (escChar c).length + (escStr cs).length := by
      rw [escStr_cons]
      simp
    by_cases h1 : c = '"'
    · subst h1
      have hstep : pStr (f + 1) (escStr ('"' :: cs) ++ '"' :: rest) =
          (pStr f (escStr cs ++ '"' :: rest)).map (fun p => ('"' :: p.1, p.2)) := rfl
      rw [hstep, ih f rest (by rw [hlen] at hf; simp [escChar] at hf ⊢; omega)]
      rfl
    · by_cases h2 : c = '\\'
      · subst h2
        have hstep : pStr (f + 1) (escStr ('\\' :: cs) ++ '"' :: rest) =
            (pStr f (escStr cs ++ '"' :: rest)).map (fun p => ('\\' :: p.1, p.2)) := rfl
        rw [hstep, ih f rest (by rw [hlen] at hf; simp [escChar] at hf ⊢; omega)]
        rfl
      · by_cases h3 : c = '\n'
        · subst h3
          have hstep : pStr (f + 1) (escStr ('\n' :: cs) ++ '"' :: rest) =
              (pStr f (escStr cs ++ '"' :: rest)).map (fun p => ('\n' :: p.1, p.2)) := rfl
          rw [hstep, ih f rest (by rw [hlen] at hf; simp [escChar] at hf ⊢; omega)]
          rfl
        · by_cases h4 : c = '\r'
          · subst h4
            have hstep : pStr (f + 1) (escStr ('\r' :: cs) ++ '"' :: rest) =
                (pStr f (escStr cs ++ '"' :: rest)).map (fun p => ('\r' :: p.1, p.2)) := rfl
            rw [hstep, ih f rest (by rw [hlen] at hf; simp [escChar] at hf ⊢; omega)]
            rfl
          · by_cases h5 : c = '\t'
            · subst h5
              have hstep : pStr (f + 1) (escStr ('\t' :: cs) ++ '"' :: rest) =
                  (pStr f (escStr cs ++ '"' :: rest)).map (fun p => ('\t' :: p.1, p.2)) := rfl
              rw [hstep, ih f rest (by rw [hlen] at hf; simp [escChar] at hf ⊢; omega)]
              rfl
            · by_cases h6 : c.toNat = 8
              · have hc : c = Char.ofNat 8 := by rw [← Char.ofNat_toNat c, h6]
                subst hc
                have hstep : pStr (f + 1) (escStr (Char.ofNat 8 :: cs) ++ '"' :: rest) =
                    (pStr f (escStr cs ++ '"' :: rest)).map
                      (fun p => (Char.ofNat 8 :: p.1, p.2)) := rfl
                rw [hstep, ih f rest (by
                  rw [hlen] at hf
                  have h2l : (escChar (Char.ofNat 8)).length = 2 := rfl
                  omega)]
                rfl
              · by_cases h7 : c.toNat = 12
                · have hc : c = Char.ofNat 12 := by rw [← Char.ofNat_toNat c, h7]
                  subst hc
                  have hstep : pStr (f + 1) (escStr (Char.ofNat 12 :: cs) ++ '"' :: rest) =
                      (pStr f (escStr cs ++ '"' :: rest)).map
                        (fun p => (Char.ofNat 12 :: p.1, p.2)) := rfl
                  rw [hstep, ih f rest (by
                    rw [hlen] at hf
                    have h2l : (escChar (Char.ofNat 12)).length = 2 := rfl
                    omega)]
                  rfl
                · by_cases h8 : c.toNat < 32 ∨ 127 ≤ c.toNat
                  · have hesc8 : (c.toNat < 32 || 127 ≤ c.toNat) = true := by
                      simp only [Bool.or_eq_true, decide_eq_true_eq]
                      exact h8
                    by_cases h8a : c.toNat < 65536
                    · have hesc : escChar c = '\\' :: 'u' :: hexQuad c.toNat := by
                        unfold escChar
                        rw [if_neg h1, if_neg h2, if_neg h3, if_neg h4, if_neg h5,
                            if_neg h6, if_neg h7, if_pos hesc8, if_pos h8a]
                      have hform : escStr (c :: cs) ++ '"' :: rest =
                          '\\' :: 'u' :: (hexQuad c.toNat ++ (escStr cs ++ '"' :: rest)) := by
                        rw [escStr_cons, hesc]
                        simp
                      have hns : ¬ ((55296 ≤ c.toNat && c.toNat < 56320) = true) := by
                        simp only [Bool.and_eq_true, decide_eq_true_eq, not_and, not_lt]
                        intro hge
                        rcases charValid c with hv | ⟨hv1, hv2⟩ <;> omega
                      rw [hform, pStr_u_bmp f c.toNat _ (by omega) hns, Char.ofNat_toNat,
                          ih f rest (by
                            rw [hlen, hesc] at hf
                            simp [hexQuad] at hf ⊢
                            omega)]
                      rfl
                    · have hv2 : c.toNat < 1114112 := by
                        rcases charValid c with hv | ⟨_, hv⟩ <;> omega
                      have hhi : (c.toNat - 65536) >>> 10 < 1024 := by
                        rw [Nat.shiftRight_eq_div_pow]
                        norm_num
                        omega
                      have hlo : (c.toNat - 65536) &&& 1023 < 1024 := by
                        rw [and_1023_mod]
                        omega
                      have hesc : escChar c =
                          ('\\' :: 'u' :: hexQuad (55296 + ((c.toNat - 65536) >>> 10))) ++
                            ('\\' :: 'u' :: hexQuad (56320 + ((c.toNat - 65536) &&& 1023))) := by
                        unfold escChar
                        rw [if_neg h1, if_neg h2, if_neg h3, if_neg h4, if_neg h5,
                            if_neg h6, if_neg h7, if_pos hesc8, if_neg h8a]
                      have hform : escStr (c :: cs) ++ '"' :: rest =
                          '\\' :: 'u' :: (hexQuad (55296 + ((c.toNat - 65536) >>> 10)) ++
                            ('\\' :: 'u' :: (hexQuad (56320 + ((c.toNat - 65536) &&& 1023)) ++
                              (escStr cs ++ '"' :: rest)))) := by
                        rw [escStr_cons, hesc]
                        simp
                      have hchar : Char.ofNat (65536 +
                          ((55296 + ((c.toNat - 65536) >>> 10) - 55296) <<< 10) +
                          (56320 + ((c.toNat - 65536) &&& 1023) - 56320)) = c := by
                        have harith : 65536 +
                            ((55296 + ((c.toNat - 65536) >>> 10) - 55296) <<< 10) +
                            (56320 + ((c.toNat - 65536) &&& 1023) - 56320) = c.toNat := by
                          rw [Nat.add_sub_cancel_left, Nat.add_sub_cancel_left,
                              Nat.shiftLeft_eq, Nat.shiftRight_eq_div_pow, and_1023_mod]
                          norm_num
                          omega
                        rw [harith, Char.ofNat_toNat]
                      rw [hform, pStr_u_pair f _ _ _ (by omega) (by omega) (by omega)
                            (by omega) (by omega) (by omega), hchar,
                          ih f rest (by
                            rw [hlen, hesc] at hf
                            simp [hexQuad] at hf ⊢
                            omega)]
                      rfl
                  · have hesc8 : ¬ ((c.toNat < 32 || 127 ≤ c.toNat) = true) := by
                      simp only [Bool.or_eq_true, decide_eq_true_eq]
                      exact h8
                    have hesc : escChar c = [c] := by
                      unfold escChar
                      rw [if_neg h1, if_neg h2, if_neg h3, if_neg h4, if_neg h5,
                          if_neg h6, if_neg h7, if_neg hesc8]
                    have hform : escStr (c :: cs) ++ '"' :: rest =
                        c :: (escStr cs ++ '"' :: rest) := by
                      rw [escStr_cons, hesc]
                      simp
                    rw [hform, pStr_plain f c _ h1 h2 (by omega),
                        ih f rest (by rw [hlen, hesc] at hf; simp at hf ⊢; omega)]
                    rfl

theorem char_eq_of_toNat_eq {c d : Char} (h : c.toNat = d.toNat) : c = d :=
  Char.ext (UInt32.toNat.inj h)

theorem dropWs_not_ws {c : Char} (t : List Char) (h : isJsonWs c = false) :
    dropWs (c :: t) = c :: t := by
  simp [dropWs, h]

theorem pVal_ws (f : Nat) {c : Char} (Z : List Char) (h : isJsonWs c = true) :
    pVal f (c :: Z) = pVal f Z := by
  cases f with
  | zero => rfl
  | succ f =>
    have hd : dropWs (c :: Z) = dropWs Z := by simp [dropWs, h]
    simp only [pVal, hd]

theorem pElems_ws (f : Nat) {c : Char} (Z : List Char) (acc : List Json)
    (h : isJsonWs c = true) :
    pElems f (c :: Z) acc = pElems f Z acc := by
  cases f with
  | zero => rfl
  | succ f => simp only [pElems, pVal_ws f Z h]

theorem pMembers_ws (f : Nat) {c : Char} (Z : List Char)
    (acc : List (List Char × Json)) (h : isJsonWs c = true) :
    pMembers f (c :: Z) acc = pMembers f Z acc := by
  cases f with
  | zero => rfl
  | succ f =>
    have hd : dropWs (c :: Z) = dropWs Z := by simp [dropWs, h]
    simp only [pMembers, hd]

theorem not_ws_of_toNat {c : Char} (h1 : c.toNat ≠ 32) (h2 : c.toNat ≠ 9)
    (h3 : c.toNat ≠ 10) (h4 : c.toNat ≠ 13) : isJsonWs c = false := by
  simp only [isJsonWs, Bool.or_eq_false_iff, decide_eq_false_iff_not]
  exact ⟨⟨⟨fun he => h1 (by rw [he]; rfl), fun he => h2 (by rw [he]; rfl)⟩,
    fun he => h3 (by rw [he]; rfl)⟩, fun he => h4 (by rw [he]; rfl)⟩

theorem isDigitCh_not_ws {c : Char} (h : isDigitCh c = true) : isJsonWs c = false := by
  obtain ⟨h1, h2⟩ := isDigitCh_range h
  exact not_ws_of_toNat (by omega) (by omega) (by omega) (by omega)

theorem isDigitCh_ne {c : Char} (h : isDigitCh c = true) {d : Char}
    (hd : d.toNat < 48 ∨ 57 < d.toNat) : c ≠ d := by
  obtain ⟨h1, h2⟩ := isDigitCh_range h
  exact fun he => by
    rw [he] at h1 h2
    omega

/-- The first character of a serialized integer: a minus sign or a digit. -/
theorem intChars_head (i : Int) :
    ∃ c t, intChars i = c :: t ∧ (c = '-' ∨ isDigitCh c = true) := by
  by_cases hi : 0 ≤ i
  · rw [intChars_nonneg i hi]
    cases hq : digitsBE i.toNat with
    | nil => exact absurd hq (digitsBE_ne_nil _)
    | cons c t =>
      refine ⟨c, t, rfl, Or.inr ?_⟩
      exact digitsBE_digits _ c (by rw [hq]; simp)
  · rw [intChars_neg i (by omega)]
    exact ⟨'-', _, rfl, Or.inl rfl⟩

/-- The first character of any serialized JSON value, with the facts needed
to steer the parser: nonempty, not whitespace, not a closing bracket. -/
theorem dump_head (j : Json) :
    ∃ c t, dumpJson j = c :: t ∧ isJsonWs c = false ∧ c ≠ ']' ∧ c ≠ '}' := by
  have hsplit : ∀ c : Char, (!isJsonWs c && (c != ']' && c != '}')) = true →
      isJsonWs c = false ∧ c ≠ ']' ∧ c ≠ '}' := fun c hc => by
    simp only [Bool.and_eq_true, Bool.not_eq_true', bne_iff_ne, ne_eq] at hc
    exact ⟨hc.1, hc.2.1, hc.2.2⟩
  cases j with
  | num i =>
    obtain ⟨c, t, hct, hc⟩ := intChars_head i
    refine ⟨c, t, hct, ?_, ?_, ?_⟩
    · rcases hc with h | h
      · subst h; decide
      · exact isDigitCh_not_ws h
    · rcases hc with h | h
      · subst h; decide
      · exact isDigitCh_ne h (by decide)
    · rcases hc with h | h
      · subst h; decide
      · exact isDigitCh_ne h (by decide)
  | null => exact ⟨'n', _, rfl, hsplit 'n' (by decide)⟩
  | bool b =>
    cases b with
    | true => exact ⟨'t', _, rfl, hsplit 't' (by decide)⟩
    | false => exact ⟨'f', _, rfl, hsplit 'f' (by decide)⟩
  | str s => exact ⟨'"', _, rfl, hsplit '"' (by decide)⟩
  | arr es =>
    cases es with
    | nil => exact ⟨'[', _, rfl, hsplit '[' (by decide)⟩
    | cons e es => exact ⟨'[', _, rfl, hsplit '[' (by decide)⟩
  | obj fs =>
    cases fs with
    | nil => exact ⟨'{', _, rfl, hsplit '{' (by decide)⟩
    | cons f fs => exact ⟨'{', _, rfl, hsplit '{' (by decide)⟩

theorem dump_len_pos (j : Json) : 1 ≤ (dumpJson j).length := by
  obtain ⟨c, t, hct, -⟩ := dump_head j
  rw [hct]
  simp

theorem stopOk_moreElems (es : List Json) (X : List Char) :
    stopOk (dumpMoreElems es ++ ']' :: X) = true := by
  cases es with
  | nil => rfl
  | cons e es => rfl

theorem stopOk_moreFields (fs : List (List Char × Json)) (X : List Char) :
    stopOk (dumpMoreFields fs ++ '}' :: X) = true := by
  cases fs with
  | nil => rfl
  | cons f fs =>
    cases f with
    | mk k v => rfl

theorem dictInsert_append (acc : List (List Char × Json)) (k : List Char) (v : Json)
    (h : ∀ p ∈ acc, p.1 ≠ k) : dictInsert acc k v = acc ++ [(k, v)] := by
  induction acc with
  | nil => rfl
  | cons p rest ih =>
    cases p with
    | mk k0 v0 =>
      have hne : k0 ≠ k := h (k0, v0) (by simp)
      simp only [dictInsert, hne, if_neg, if_false, List.cons_append]
      rw [ih (fun q hq => h q (by simp [hq]))]

theorem keysFresh_tail {p : List Char × Json} {fs : List (List Char × Json)}
    (h : keysFresh (p :: fs) = true) : keysFresh fs = true := by
  cases p with
  | mk k v =>
    simp only [keysFresh, Bool.and_eq_true] at h
    exact h.2

theorem keysFresh_head {k : List Char} {v : Json} {fs : List (List Char × Json)}
    (h : keysFresh ((k, v) :: fs) = true) : ∀ p ∈ fs, p.1 ≠ k := by
  simp only [keysFresh, Bool.and_eq_true, Bool.not_eq_true', List.any_eq_false] at h
  intro p hp
  have := h.1 p hp
  simpa using this

theorem pVal_null_step (f : Nat) (X : List Char) :
    pVal (f + 1) (dumpJson .null ++ X) = some (.null, X) := rfl

theorem pVal_true_step (f : Nat) (X : List Char) :
    pVal (f + 1) (dumpJson (.bool true) ++ X) = some (.bool true, X) := rfl

theorem pVal_false_step (f : Nat) (X : List Char) :
    pVal (f + 1) (dumpJson (.bool false) ++ X) = some (.bool false, X) := rfl

theorem pVal_arrnil_step (f : Nat) (X : List Char) :
    pVal (f + 1) (dumpJson (.arr []) ++ X) = some (.arr [], X) := rfl

theorem pVal_objnil_step (f : Nat) (X : List Char) :
    pVal (f + 1) (dumpJson (.obj []) ++ X) = some (.obj [], X) := rfl

theorem pVal_str_step (f : Nat) (s : List Char) (X : List Char)
    (hf : (escStr s).length < f) :
    pVal (f + 1) (dumpJson (.str s) ++ X) = some (.str s, X) := by
  have hform : dumpJson (.str s) ++ X = '"' :: (escStr s ++ '"' :: X) := by
    show ('"' :: (escStr s ++ ['"'])) ++ X = _
    simp
  have hstep : pVal (f + 1) ('"' :: (escStr s ++ '"' :: X)) =
      (pStr f (escStr s ++ '"' :: X)).map (fun p => (Json.str p.1, p.2)) := rfl
  rw [hform, hstep, pStr_escStr s f X hf]
  rfl

theorem pVal_num_step (f : Nat) (i : Int) (X : List Char) (hstop : stopOk X = true) :
    pVal (f + 1) (dumpJson (.num i) ++ X) = some (.num i, X) := by
  obtain ⟨c, t, hct, hc⟩ := intChars_head i
  have hnws : isJsonWs c = false := by
    rcases hc with h | h
    · subst h; decide
    · exact isDigitCh_not_ws h
  have hne1 : c ≠ '{' := by
    rcases hc with h | h
    · subst h; decide
    · exact isDigitCh_ne h (by decide)
  have hne2 : c ≠ '[' := by
    rcases hc with h | h
    · subst h; decide
    · exact isDigitCh_ne h (by decide)
  have hne3 : c ≠ '"' := by
    rcases hc with h | h
    · subst h; decide
    · exact isDigitCh_ne h (by decide)
  have hne4 : c ≠ 't' := by
    rcases hc with h | h
    · subst h; decide
    · exact isDigitCh_ne h (by decide)
  have hne5 : c ≠ 'f' := by
    rcases hc with h | h
    · subst h; decide
    · exact isDigitCh_ne h (by decide)
  have hne6 : c ≠ 'n' := by
    rcases hc with h | h
    · subst h; decide
    · exact isDigitCh_ne h (by decide)
  have hform : dumpJson (.num i) ++ X = c :: (t ++ X) := by
    show intChars i ++ X = _
    rw [hct]
    rfl
  have hdrop : dropWs (c :: (t ++ X)) = c :: (t ++ X) := dropWs_not_ws _ hnws
  rw [hform]
  simp only [pVal, hdrop, hne1, hne2, hne3, hne4, hne5, hne6, if_neg, if_false]
  have hback : c :: (t ++ X) = intChars i ++ X := by
    rw [hct]
    rfl
  rw [hback, parseNum_intChars i X (stopOk_head_not_digit hstop)]

mutual

theorem pVal_dump (j : Json) : ∀ f X, (dumpJson j).length < f →
    jsonWF j = true → stopOk X = true →
    pVal f (dumpJson j ++ X) = some (j, X) := by
  intro f X hf hwf hstop
  obtain ⟨f, rfl⟩ : ∃ g, f = g + 1 := ⟨f - 1, by have := dump_len_pos j; omega⟩
  cases j with
  | null => exact pVal_null_step f X
  | bool b =>
    cases b with
    | true => exact pVal_true_step f X
    | false => exact pVal_false_step f X
  | num i => exact pVal_num_step f i X hstop
  | str s =>
    refine pVal_str_step f s X ?_
    have : (dumpJson (.str s)).length = (escStr s).length + 2 := by
      show ('"' :: (escStr s ++ ['"'])).length = _
      simp
    omega
  | arr es =>
    cases es with
    | nil => exact pVal_arrnil_step f X
    | cons e es =>
      have hform : dumpJson (.arr (e :: es)) ++ X =
          '[' :: (dumpJson e ++ (dumpMoreElems es ++ (']' :: X))) := by
        show ('[' :: ((dumpJson e ++ dumpMoreElems es) ++ [']'])) ++ X = _
        simp
      obtain ⟨c2, t, hct, hnws, hne, -⟩ := dump_head e
      have hdrop : dropWs (dumpJson e ++ (dumpMoreElems es ++ (']' :: X))) =
          c2 :: (t ++ (dumpMoreElems es ++ (']' :: X))) := by
        rw [hct, List.cons_append, dropWs_not_ws _ hnws]
      have hdrop0 : dropWs ('[' :: (dumpJson e ++ (dumpMoreElems es ++ (']' :: X)))) =
          '[' :: (dumpJson e ++ (dumpMoreElems es ++ (']' :: X))) :=
        dropWs_not_ws _ (by decide)
      have hstep : pVal (f + 1) ('[' :: (dumpJson e ++ (dumpMoreElems es ++ (']' :: X)))) =
          pElems f (c2 :: (t ++ (dumpMoreElems es ++ (']' :: X)))) [] := by
        simp +decide only [pVal, hdrop0, hdrop, hne, if_neg, if_false, if_true]
      have hback : c2 :: (t ++ (dumpMoreElems es ++ (']' :: X))) =
          dumpJson e ++ (dumpMoreElems es ++ (']' :: X)) := by
        rw [hct, List.cons_append]
      rw [hform, hstep, hback]
      have hlen : (dumpJson (.arr (e :: es))).length =
          2 + (dumpJson e).length + (dumpMoreElems es).length := by
        show ('[' :: ((dumpJson e ++ dumpMoreElems es) ++ [']'])).length = _
        simp
        omega
      have hwf2 : jsonWF e = true ∧ jsonWFList es = true := by
        have : jsonWFList (e :: es) = true := hwf
        simpa [jsonWFList, Bool.and_eq_true] using this
      rw [pElems_dump e es f X [] (by omega) hwf2.1 hwf2.2 hstop]
      simp

  | obj fs =>
    cases fs with
    | nil => exact pVal_objnil_step f X
    | cons kv fs =>
      cases kv with
      | mk k v =>
        have hform : dumpJson (.obj ((k, v) :: fs)) ++ X =
            '{' :: (dumpField (k, v) ++ (dumpMoreFields fs ++ ('}' :: X))) := by
          show ('{' :: ((dumpField (k, v) ++ dumpMoreFields fs) ++ ['}'])) ++ X = _
          simp
        have hfield : dumpField (k, v) = '"' :: ((escStr k ++ ['"']) ++ ':' :: ' ' :: dumpJson v) := by
          show (('"' :: (escStr k ++ ['"'])) ++ ':' :: ' ' :: dumpJson v) = _
          simp
        have hstep : pVal (f + 1) ('{' :: (dumpField (k, v) ++ (dumpMoreFields fs ++ ('}' :: X)))) =
            pMembers f (dumpField (k, v) ++ (dumpMoreFields fs ++ ('}' :: X))) [] := by
          rw [hfield]
          rfl
        rw [hform, hstep]
        have hlen : (dumpJson (.obj ((k, v) :: fs))).length =
            2 + (dumpField (k, v)).length + (dumpMoreFields fs).length := by
          show ('{' :: ((dumpField (k, v) ++ dumpMoreFields fs) ++ ['}'])).length = _
          simp
          omega
        have hwf2 : keysFresh ((k, v) :: fs) = true ∧ jsonWF v = true ∧ jsonWFFields fs = true := by
          have h0 : (keysFresh ((k, v) :: fs) && jsonWFFields ((k, v) :: fs)) = true := hwf
          simp only [Bool.and_eq_true] at h0
          have h1 : jsonWFFields ((k, v) :: fs) = true := h0.2
          have h2 : (jsonWF v && jsonWFFields fs) = true := h1
          simp only [Bool.and_eq_true] at h2
          exact ⟨h0.1, h2.1, h2.2⟩
        rw [pMembers_dump k v fs f X [] (by omega) hwf2.2.1 hwf2.2.2 hwf2.1
            (by intro q hq key hkey; simp at hq) hstop]
        simp
termination_by sizeOf j

theorem pElems_dump (e : Json) (es : List Json) : ∀ f X acc,
    (dumpJson e).length + (dumpMoreElems es).length + 1 < f →
    jsonWF e = true → jsonWFList es = true → stopOk X = true →
    pElems f (dumpJson e ++ (dumpMoreElems es ++ (']' :: X))) acc =
      some (.arr (acc ++ e :: es), X) := by
  intro f X acc hf hwfe hwfes hstop
  obtain ⟨f, rfl⟩ : ∃ g, f = g + 1 := ⟨f - 1, by have := dump_len_pos e; omega⟩
  have hval : pVal f (dumpJson e ++ (dumpMoreElems es ++ (']' :: X))) =
      some (e, dumpMoreElems es ++ (']' :: X)) :=
    pVal_dump e f (dumpMoreElems es ++ (']' :: X))
      (by have := dump_len_pos e; omega) hwfe (stopOk_moreElems es X)
  cases es with
  | nil =>
    simp only [dumpMoreElems, List.nil_append] at hval
    have hdrop : dropWs (']' :: X) = ']' :: X := dropWs_not_ws _ (by decide)
    simp only [pElems, dumpMoreElems, List.nil_append, hval, hdrop]
  | cons e2 es2 =>
    have hmore : dumpMoreElems (e2 :: es2) ++ (']' :: X) =
        ',' :: ' ' :: (dumpJson e2 ++ (dumpMoreElems es2 ++ (']' :: X))) := by
      show (',' :: ' ' :: (dumpJson e2 ++ dumpMoreElems es2)) ++ (']' :: X) = _
      simp
    rw [hmore] at hval
    simp only [pElems, hmore, hval]
    have hdrop : dropWs (',' :: ' ' :: (dumpJson e2 ++ (dumpMoreElems es2 ++ (']' :: X)))) =
        ',' :: ' ' :: (dumpJson e2 ++ (dumpMoreElems es2 ++ (']' :: X))) :=
      dropWs_not_ws _ (by decide)
    simp only [hdrop]
    show pElems f (' ' :: (dumpJson e2 ++ (dumpMoreElems es2 ++ (']' :: X)))) (acc ++ [e]) = _
    rw [pElems_ws f _ (acc ++ [e]) (by decide)]
    have hwf2 : jsonWF e2 = true ∧ jsonWFList es2 = true := by
      have h0 : (jsonWF e2 && jsonWFList es2) = true := hwfes
      simpa [Bool.and_eq_true] using h0
    have hlen2 : (dumpMoreElems (e2 :: es2)).length =
        2 + (dumpJson e2).length + (dumpMoreElems es2).length := by
      show (',' :: ' ' :: (dumpJson e2 ++ dumpMoreElems es2)).length = _
      simp
      omega
    rw [pElems_dump e2 es2 f X (acc ++ [e]) (by omega) hwf2.1 hwf2.2 hstop]
    simp
termination_by sizeOf e + sizeOf es + 1

theorem pMembers_dump (k : List Char) (v : Json) (fs : List (List Char × Json)) :
    ∀ f X acc,
    (dumpField (k, v)).length + (dumpMoreFields fs).length < f →
    jsonWF v = true → jsonWFFields fs = true →
    keysFresh ((k, v) :: fs) = true →
    (∀ q ∈ acc, ∀ key ∈ ((k, v) :: fs).map Prod.fst, q.1 ≠ key) →
    stopOk X = true →
    pMembers f (dumpField (k, v) ++ (dumpMoreFields fs ++ ('}' :: X))) acc =
      some (.obj (acc ++ (k, v) :: fs), X) := by
  intro f X acc hf hwfv hwffs hfresh hacc hstop
  obtain ⟨f, rfl⟩ : ∃ g, f = g + 1 := ⟨f - 1, by omega⟩
  have hfieldlen : (dumpField (k, v)).length = (escStr k).length + 4 + (dumpJson v).length := by
    show (('"' :: (escStr k ++ ['"'])) ++ ':' :: ' ' :: dumpJson v).length = _
    simp
    omega
  have hform : dumpField (k, v) ++ (dumpMoreFields fs ++ ('}' :: X)) =
      '"' :: (escStr k ++ '"' :: (':' :: ' ' :: (dumpJson v ++ (dumpMoreFields fs ++ ('}' :: X))))) := by
    show (('"' :: (escStr k ++ ['"'])) ++ ':' :: ' ' :: dumpJson v) ++ (dumpMoreFields fs ++ ('}' :: X)) = _
    simp
  rw [hform]
  have hstr : pStr f (escStr k ++ '"' :: (':' :: ' ' :: (dumpJson v ++ (dumpMoreFields fs ++ ('}' :: X))))) =
      some (k, ':' :: ' ' :: (dumpJson v ++ (dumpMoreFields fs ++ ('}' :: X)))) :=
    pStr_escStr k f _ (by omega)
  have hdropq : dropWs ('"' :: (escStr k ++ '"' :: (':' :: ' ' ::
      (dumpJson v ++ (dumpMoreFields fs ++ ('}' :: X)))))) =
      '"' :: (escStr k ++ '"' :: (':' :: ' ' ::
      (dumpJson v ++ (dumpMoreFields fs ++ ('}' :: X))))) :=
    dropWs_not_ws _ (by decide)
  have hdropc : dropWs (':' :: ' ' :: (dumpJson v ++ (dumpMoreFields fs ++ ('}' :: X)))) =
      ':' :: ' ' :: (dumpJson v ++ (dumpMoreFields fs ++ ('}' :: X))) :=
    dropWs_not_ws _ (by decide)
  have hpv : pVal f (' ' :: (dumpJson v ++ (dumpMoreFields fs ++ ('}' :: X)))) =
      some (v, dumpMoreFields fs ++ ('}' :: X)) := by
    rw [pVal_ws f _ (by decide)]
    exact pVal_dump v f (dumpMoreFields fs ++ ('}' :: X)) (by omega) hwfv
      (stopOk_moreFields fs X)
  simp only [pMembers, hdropq, hstr, hdropc, hpv]
  have hins : dictInsert acc k v = acc ++ [(k, v)] :=
    dictInsert_append acc k v (fun p hp =>
      hacc p hp k (by rw [List.map_cons]; exact List.mem_cons_self _ _))
  cases fs with
  | nil =>
    have hdrop : dropWs ('}' :: X) = '}' :: X := dropWs_not_ws _ (by decide)
    simp only [dumpMoreFields, List.nil_append, hdrop, hins]
  | cons kv2 fs2 =>
    cases kv2 with
    | mk k2 v2 =>
      have hmore : dumpMoreFields ((k2, v2) :: fs2) ++ ('}' :: X) =
          ',' :: ' ' :: (dumpField (k2, v2) ++ (dumpMoreFields fs2 ++ ('}' :: X))) := by
        show (',' :: ' ' :: (dumpField (k2, v2) ++ dumpMoreFields fs2)) ++ ('}' :: X) = _
        simp
      have hdrop : dropWs (',' :: ' ' :: (dumpField (k2, v2) ++ (dumpMoreFields fs2 ++ ('}' :: X)))) =
          ',' :: ' ' :: (dumpField (k2, v2) ++ (dumpMoreFields fs2 ++ ('}' :: X))) :=
        dropWs_not_ws _ (by decide)
      simp only [hmore, hdrop]
      show pMembers f (' ' :: (dumpField (k2, v2) ++ (dumpMoreFields fs2 ++ ('}' :: X))))
          (dictInsert acc k v) = _
      rw [pMembers_ws f _ (dictInsert acc k v) (by decide), hins]
      have hwf2 : jsonWF v2 = true ∧ jsonWFFields fs2 = true := by
        have h0 : (jsonWF v2 && jsonWFFields fs2) = true := hwffs
        simpa [Bool.and_eq_true] using h0
      have hlen2 : (dumpMoreFields ((k2, v2) :: fs2)).length =
          2 + (dumpField (k2, v2)).length + (dumpMoreFields fs2).length := by
        show (',' :: ' ' :: (dumpField (k2, v2) ++ dumpMoreFields fs2)).length = _
        simp
        omega
      have hacc2 : ∀ q ∈ acc ++ [(k, v)], ∀ key ∈ ((k2, v2) :: fs2).map Prod.fst, q.1 ≠ key := by
        intro q hq key hkey
        rcases List.mem_append.mp hq with hq1 | hq1
        · refine hacc q hq1 key ?_
          rw [List.map_cons]
          exact List.mem_cons_of_mem _ hkey
        · have hq2 : q = (k, v) := by simpa using hq1
          subst hq2
          have hk := keysFresh_head hfresh
          obtain ⟨p, hp, hkey2⟩ := List.mem_map.mp hkey
          intro he
          exact hk p hp (by rw [hkey2]; exact he.symm)
      rw [pMembers_dump k2 v2 fs2 f X (acc ++ [(k, v)]) (by omega) hwf2.1 hwf2.2
          (keysFresh_tail hfresh) hacc2 hstop]
      simp
termination_by sizeOf v + sizeOf fs + 1

end

/-- The executable `json.loads` model inverts the `json.dumps` model on
every well-formed JSON value. -/
theorem jsonLoads_dumpJson (j : Json) (h : jsonWF j = true) :
    jsonLoads (dumpJson j) = some j := by
  unfold jsonLoads
  have hval : pVal (4 * (dumpJson j).length + 16) (dumpJson j ++ []) = some (j, []) :=
    pVal_dump j (4 * (dumpJson j).length + 16) [] (by omega) h rfl
  rw [List.append_nil] at hval
  rw [hval]
  rfl

/-! ## Claim theorems -/

/-- C2 counterexample: the claimed universal schedule fails for failure
runs that follow a successful session. `run()` executes the backoff block
after *every* cycle, including one whose `connect`/`listen` succeeded: the
success cycle resets the delay to 5 inside `connect()`, then after the
session ends the loop sleeps 5 and doubles the delay to 10 (`comm.py:154`).
Concretely, a successful session followed by three consecutive failing
connect attempts waits 10, 20, 30 on those failures — not the claimed
`min(5 * 2^k, 30)` schedule 5, 10, 20 — and the escape valve abandons the
client after the third failure, not the fourth. -/
theorem C2_backoff_counterexample :
    runScript initSt [(Att.ok, StopReq.noStop), (Att.fail, StopReq.noStop),
        (Att.fail, StopReq.noStop), (Att.fail, StopReq.noStop)] =
      ([TraceEv.attempt, TraceEv.wait 5, TraceEv.attempt, TraceEv.wait 10,
        TraceEv.attempt, TraceEv.wait 20, TraceEv.attempt, TraceEv.wait 30,
        TraceEv.abandoned], ⟨false, false, 30⟩)
    ∧ [(10 : Nat), 20, 30] ≠ (List.range 3).map (fun k => min (5 * 2 ^ k) 30) := by
  constructor
  · decide
  · decide

/-- C2 amended: backoff schedule. The `min(5 * 2^k, 30)` wait schedule —
5, 10, 20, then 30 (capped), with `min_delay = 5`, `max_delay = 30` as
hardcoded in `comm.py` — holds for `N` consecutive failing connect attempts
starting from the client's initial (reset-delay) state; runs with more than
four such failures do not exist because the escape valve clears `running`
after the fourth (see C3). Any successful transport connect resets the
delay to 5 inside `connect()`. But because `run()` doubles the delay after
every cycle's sleep, including a successful session's, `N ≤ 3` consecutive
failures that follow a successful session start at delay 10: the success
cycle waits its own 5, and the failures wait `min(10 * 2^k, 30)` —
10, 20, 30 — with the valve firing after the third. -/
theorem C2_backoff_schedule_amended :
    (∀ n, n ≤ 4 →
      waitsOf (runScript initSt (List.replicate n (Att.fail, StopReq.noStop))).1 =
        (List.range n).map (fun k => min (5 * 2 ^ k) 30))
    ∧ (∀ s a, a ≠ Att.fail → (tryPhase s a).delay = 5)
    ∧ (∀ n, n ≤ 3 →
        waitsOf (runScript initSt ((Att.ok, StopReq.noStop) ::
            List.replicate n (Att.fail, StopReq.noStop))).1 =
          5 :: (List.range n).map (fun k => min (10 * 2 ^ k) 30)) := by
  refine ⟨?_, ?_, ?_⟩
  · intro n hn
    interval_cases n <;> decide
  · intro s a ha
    cases a with
    | fail => exact absurd rfl ha
    | authFail => rfl
    | ok => rfl
  · intro n hn
    interval_cases n <;> decide

/-- Witness for C2 at `N = 4` pure failures, at a successful connect, and
at a successful session followed by three failures. -/
theorem C2_backoff_schedule_amended_witness :
    waitsOf (runScript initSt (List.replicate 4 (Att.fail, StopReq.noStop))).1 =
      (List.range 4).map (fun k => min (5 * 2 ^ k) 30)
    ∧ (tryPhase initSt Att.ok).delay = 5
    ∧ waitsOf (runScript initSt ((Att.ok, StopReq.noStop) ::
          List.replicate 3 (Att.fail, StopReq.noStop))).1 =
        5 :: (List.range 3).map (fun k => min (10 * 2 ^ k) 30) :=
  ⟨C2_backoff_schedule_amended.1 4 (by decide),
   C2_backoff_schedule_amended.2.1 initSt Att.ok (by decide),
   C2_backoff_schedule_amended.2.2 3 (by decide)⟩

/-- C3: escape valve. In a cycle with no external `stop()` call, `running`
is cleared exactly when the connect attempt failed with the delay already
at its maximum of 30 (a success resets the delay to 5 first, so only a
failed connect can trigger it); on that path `run` waits the final 30
seconds, logs the abandonment and stops; and once `running` is false the
loop makes no further connect attempt. -/
theorem C3_escape_valve :
    (∀ s a, s.running = true →
      ((iterCycle s a StopReq.noStop).2.running = false ↔
        a = Att.fail ∧ ¬ s.delay < 30))
    ∧ (∀ s, s.running = true → ¬ s.delay < 30 →
        (iterCycle s Att.fail StopReq.noStop).1 =
          [TraceEv.wait s.delay, TraceEv.abandoned])
    ∧ (∀ s l, s.running = false → runScript s l = ([], s)) := by
  refine ⟨?_, ?_, runScript_of_not_running⟩
  · intro s a hr
    cases a <;> by_cases hd : s.delay < 30 <;>
      simp [iterCycle, tryPhase, hr, hd]
  · intro s hr hd
    simp [iterCycle, tryPhase, hr, hd]

/-- Witness for C3: from `running` state at delay 30, a failed attempt
clears `running`, emits the final wait and the abandonment, and the
continuation makes no further attempt. -/
theorem C3_escape_valve_witness :
    ((iterCycle ⟨true, false, 30⟩ Att.fail StopReq.noStop).2.running = false ↔
      Att.fail = Att.fail ∧ ¬ (30 : Nat) < 30)
    ∧ (iterCycle ⟨true, false, 30⟩ Att.fail StopReq.noStop).1 =
        [TraceEv.wait 30, TraceEv.abandoned]
    ∧ runScript ⟨false, false, 30⟩ [(Att.fail, StopReq.noStop)] = ([], ⟨false, false, 30⟩) :=
  ⟨C3_escape_valve.1 ⟨true, false, 30⟩ Att.fail rfl,
   C3_escape_valve.2.1 ⟨true, false, 30⟩ rfl (by decide),
   C3_escape_valve.2.2 ⟨false, false, 30⟩ [(Att.fail, StopReq.noStop)] rfl⟩

/-- C4 counterexample: `stop()` arrives while the run loop sleeps in the
first backoff wait (after a failed attempt, delay 5). The claim says the
wait is aborted immediately; in the code nothing cancels `asyncio.sleep`,
so the trace still records the *full* 5-second wait — and then no further
connect attempt occurs (one single `.attempt` in the trace). -/
theorem C4_stop_during_wait_counterexample :
    runScript initSt [(Att.fail, StopReq.duringWait), (Att.fail, StopReq.noStop)] =
      ([TraceEv.attempt, TraceEv.wait 5], ⟨false, false, 10⟩) := by decide

/-- C4 amended: when `stop()` is called during the backoff wait, the wait
still runs to completion for its full current duration (it is not
interrupted), and afterwards the loop exits: no further connect attempt
occurs and `running` stays false. -/
theorem C4_stop_cancels_attempt_not_wait :
    ∀ s a rest, s.running = true →
      waitsOf (runScript s ((a, StopReq.duringWait) :: rest)).1 = [(tryPhase s a).delay]
      ∧ countAttempts (runScript s ((a, StopReq.duringWait) :: rest)).1 = 1
      ∧ (runScript s ((a, StopReq.duringWait) :: rest)).2.running = false := by
  intro s a rest hr
  have hrun : (tryPhase s a).running = true := by
    cases a <;> simpa [tryPhase] using hr
  by_cases hd : (tryPhase s a).delay < 30 <;>
    simp [runScript, iterCycle, hr, hrun, hd, runScript_of_not_running, waitsOf, countAttempts]

/-- Witness for C4 amended: concrete run, stop during the first wait. -/
theorem C4_stop_cancels_attempt_not_wait_witness :
    waitsOf (runScript initSt [(Att.fail, StopReq.duringWait), (Att.fail, StopReq.noStop)]).1 =
      [(tryPhase initSt Att.fail).delay]
    ∧ countAttempts (runScript initSt [(Att.fail, StopReq.duringWait), (Att.fail, StopReq.noStop)]).1 = 1
    ∧ (runScript initSt [(Att.fail, StopReq.duringWait), (Att.fail, StopReq.noStop)]).2.running = false :=
  C4_stop_cancels_attempt_not_wait initSt Att.fail [(Att.fail, StopReq.noStop)] rfl

/-- C10 (implicit): `connect()` resets the backoff delay to 5 as soon as
the transport opens and before the auth envelope is sent, so an auth-send
failure leaves the delay reset. Consequently a run of `n` consecutive
auth-send failures — from *any* current delay — waits exactly 5 seconds
after each one, never grows the backoff, never triggers the give-up path
and leaves the supervisor running. -/
theorem C10_auth_failures_keep_min_delay :
    (∀ s, (tryPhase s Att.authFail).delay = 5)
    ∧ (∀ d n,
        waitsOf (runScript ⟨true, false, d⟩
          (List.replicate n (Att.authFail, StopReq.noStop))).1 = List.replicate n 5
        ∧ (runScript ⟨true, false, d⟩
            (List.replicate n (Att.authFail, StopReq.noStop))).2.running = true
        ∧ countAbandoned (runScript ⟨true, false, d⟩
            (List.replicate n (Att.authFail, StopReq.noStop))).1 = 0) := by
  refine ⟨fun s => rfl, ?_⟩
  intro d n
  induction n generalizing d with
  | zero => exact ⟨rfl, rfl, rfl⟩
  | succ n ih =>
    have hstep : iterCycle ⟨true, false, d⟩ Att.authFail StopReq.noStop =
        ([TraceEv.wait 5], ⟨true, false, 10⟩) := by
      simp [iterCycle, tryPhase]
    obtain ⟨ih1, ih2, ih3⟩ := ih 10
    have hrw : runScript ⟨true, false, d⟩
        (List.replicate (n + 1) (Att.authFail, StopReq.noStop)) =
        (TraceEv.attempt :: TraceEv.wait 5 ::
          (runScript ⟨true, false, 10⟩ (List.replicate n (Att.authFail, StopReq.noStop))).1,
         (runScript ⟨true, false, 10⟩ (List.replicate n (Att.authFail, StopReq.noStop))).2) := by
      simp [List.replicate_succ, runScript, hstep]
    refine ⟨?_, ?_, ?_⟩
    · rw [hrw, List.replicate_succ]
      simpa [waitsOf] using ih1
    · rw [hrw]
      exact ih2
    · rw [hrw]
      simpa [countAbandoned] using ih3

/-- C5: inactivity watchdog (monitor modelled from the spec, §4.3; the
supervisor reaction is the `run` loop from `comm.py`). When no activity has
been observed for longer than `heartbeatTimeout`, the periodic check
requests the session's closure; the session ending is a retryable
termination like any other (`Att.ok` covers any cycle where `listen`
returns): the supervisor stays running, performs a backoff wait, and makes
a fresh connect attempt — two attempts in a script of the closed session
followed by one more cycle. -/
theorem C5_inactivity_watchdog :
    ∀ (m : LivenessMonitor) (now : Int) (s : SupSt) (a : Att),
      m.heartbeatTimeout < now - m.lastActivity → s.running = true →
      monitorRequestsClose m now = true
      ∧ waitsOf (iterCycle s Att.ok StopReq.noStop).1 = [5]
      ∧ (iterCycle s Att.ok StopReq.noStop).2.running = true
      ∧ countAttempts (runScript s [(Att.ok, StopReq.noStop), (a, StopReq.noStop)]).1 = 2 := by
  intro m now s a hto hr
  have hcycle : iterCycle s Att.ok StopReq.noStop = ([TraceEv.wait 5], ⟨true, false, 10⟩) := by
    simp [iterCycle, tryPhase, hr]
  refine ⟨by simpa [monitorRequestsClose] using hto, by simp [hcycle, waitsOf], by simp [hcycle], ?_⟩
  cases a <;>
    simp [runScript, hr, hcycle, iterCycle, tryPhase, countAttempts]

/-- Witness for C5: timeout 90, last activity at 0, checked at time 91. -/
theorem C5_inactivity_watchdog_witness :
    monitorRequestsClose ⟨0, 90⟩ 91 = true
    ∧ waitsOf (iterCycle initSt Att.ok StopReq.noStop).1 = [5]
    ∧ (iterCycle initSt Att.ok StopReq.noStop).2.running = true
    ∧ countAttempts (runScript initSt [(Att.ok, StopReq.noStop), (Att.fail, StopReq.noStop)]).1 = 2 :=
  C5_inactivity_watchdog ⟨0, 90⟩ 91 initSt Att.fail (by decide) rfl

/-- C1 counterexample: the round-trip claim quantifies over arbitrary
structured payloads, but `verify_message` splits the frame on *every* dot
(`data.split(".")` without maxsplit). An envelope whose payload contains
the string `"a.b"` signs into a frame with two dots, so verification
rejects it as a malformed frame instead of returning the envelope. -/
theorem C1_roundtrip_counterexample :
    verify_message sampleSecret (sign_message sampleSecret dottedEnv) 110 =
      .invalid .malformedFrame := by rfl

/-- C1 (amended): the codec round-trip holds for every envelope whose
serialized form contains no `.` — for every secret and every well-formed
payload (  `jsonWF`: no dict layer repeats a key, which is automatic for
payloads built from Python dicts), whenever the verifying clock is within
the 30-second tolerance of the envelope timestamp: `verify(sign(E, S), S)`
returns exactly `E`'s timestamp, message id and payload. The JSON
serialize/parse inverse is fully proved (`jsonLoads_dumpJson`), not
assumed. -/
theorem C1_roundtrip_amended :
    ∀ (e : WsMessage) (secret : List Nat) (now : Int),
      noDot (envelopeChars e) = true →
      jsonWF (wsMessageToJson e) = true →
      (now - e.timestamp).natAbs ≤ 30 →
      verify_message secret (sign_message secret e) now =
        .ok ⟨e.timestamp, .str e.message_id, .obj e.message⟩ := by
  intro e secret now hnd hwf hts
  have hload : jsonLoads (envelopeChars e) = some (wsMessageToJson e) :=
    jsonLoads_dumpJson (wsMessageToJson e) hwf
  have hsplit : splitDot (envelopeChars e ++ '.' ::
      hmacHexChars secret (utf8Encode (envelopeChars e))) =
      [envelopeChars e, hmacHexChars secret (utf8Encode (envelopeChars e))] :=
    splitDot_sep hnd (hmacHex_noDot _ _)
  have h1 : verify_message secret (sign_message secret e) now =
      verifyParts secret (envelopeChars e)
        (hmacHexChars secret (utf8Encode (envelopeChars e))) now := by
    show verify_message secret (envelopeChars e ++ '.' ::
        hmacHexChars secret (utf8Encode (envelopeChars e))) now = _
    unfold verify_message
    rw [hsplit]
  rw [h1]
  unfold verifyParts
  rw [if_pos rfl]
  unfold verifySigned
  rw [hload]
  show (if 30 < (now - e.timestamp).natAbs then VerifyOutcome.invalid .expired
    else .ok ⟨e.timestamp, .str e.message_id, .obj e.message⟩) = _
  rw [if_neg (by omega)]

/-- Witness for C1 (amended): the sample envelope round-trips at `now`
ten seconds after its timestamp. -/
theorem C1_roundtrip_witness :
    noDot (envelopeChars sampleEnv) = true
    ∧ jsonWF (wsMessageToJson sampleEnv) = true
    ∧ ((110 : Int) - sampleEnv.timestamp).natAbs ≤ 30
    ∧ verify_message sampleSecret (sign_message sampleSecret sampleEnv) 110 =
        .ok ⟨sampleEnv.timestamp, .str sampleEnv.message_id, .obj sampleEnv.message⟩ :=
  ⟨by decide, by rfl, by decide,
   C1_roundtrip_amended sampleEnv sampleSecret 110 (by decide) (by rfl) (by decide)⟩

/-- C9 counterexample: flipping byte 1 of the payload portion (the first
`"` of the serialized envelope) to `.` yields a frame with two dots, which
`verify_message` rejects as `malformedFrame` — not `badSignature` as the
claim requires for every single-byte change of the payload portion. -/
theorem C9_tamper_counterexample :
    verify_message sampleSecret ((sign_message sampleSecret sampleEnv).set 1 '.') 100 =
      .invalid .malformedFrame
    ∧ VerifyErrKind.malformedFrame ≠ VerifyErrKind.badSignature :=
  ⟨by rfl, by decide⟩

/-- C9 (amended): changing any single byte of the payload portion of a
signed frame to a byte other than the delimiter makes `verify_message`
fail with `badSignature`, provided the recomputed keyed hash of the
modified payload differs from the frame's signature (which HMAC-SHA256
guarantees in practice; flipping a byte *to* the delimiter instead fails
with `malformedFrame`, see the counterexample). -/
theorem C9_tamper_detection_amended :
    ∀ (e : WsMessage) (secret : List Nat) (now : Int) (i : Nat) (c : Char),
      noDot (envelopeChars e) = true →
      i < (envelopeChars e).length →
      c ≠ '.' →
      hmacHexChars secret (utf8Encode ((envelopeChars e).set i c)) ≠
        hmacHexChars secret (utf8Encode (envelopeChars e)) →
      verify_message secret ((sign_message secret e).set i c) now =
        .invalid .badSignature := by
  intro e secret now i c hnd hi hc hne
  have hset : (sign_message secret e).set i c =
      (envelopeChars e).set i c ++ '.' ::
        hmacHexChars secret (utf8Encode (envelopeChars e)) := by
    show ((envelopeChars e) ++ '.' ::
        hmacHexChars secret (utf8Encode (envelopeChars e))).set i c = _
    rw [List.set_append, if_pos hi]
  have hnd' : noDot ((envelopeChars e).set i c) = true := by
    simp only [noDot, List.all_eq_true] at hnd ⊢
    intro x hx
    rcases List.mem_or_eq_of_mem_set hx with h | h
    · exact hnd x h
    · subst h; simpa using hc
  have hsplit : splitDot ((envelopeChars e).set i c ++ '.' ::
      hmacHexChars secret (utf8Encode (envelopeChars e))) =
      [(envelopeChars e).set i c,
       hmacHexChars secret (utf8Encode (envelopeChars e))] :=
    splitDot_sep hnd' (hmacHex_noDot _ _)
  have h1 : verify_message secret ((sign_message secret e).set i c) now =
      verifyParts secret ((envelopeChars e).set i c)
        (hmacHexChars secret (utf8Encode (envelopeChars e))) now := by
    rw [hset]
    unfold verify_message
    rw [hsplit]
  rw [h1]
  unfold verifyParts
  rw [if_neg hne]

/-- Witness for C9 (amended): flipping byte 2 (`t` of `"timestamp"`) of the
sample frame's payload to `x` is rejected as a bad signature. -/
theorem C9_tamper_detection_witness :
    noDot (envelopeChars sampleEnv) = true
    ∧ 2 < (envelopeChars sampleEnv).length
    ∧ ('x' : Char) ≠ '.'
    ∧ hmacHexChars sampleSecret (utf8Encode ((envelopeChars sampleEnv).set 2 'x')) ≠
        hmacHexChars sampleSecret (utf8Encode (envelopeChars sampleEnv))
    ∧ verify_message sampleSecret ((sign_message sampleSecret sampleEnv).set 2 'x') 100 =
        .invalid .badSignature :=
  ⟨by decide, by decide, by decide, by decide,
   C9_tamper_detection_amended sampleEnv sampleSecret 100 2 'x'
     (by decide) (by decide) (by decide) (by decide)⟩

/-- C6 counterexample: handling a verified `notification` envelope produces
exactly one effect — a `logger.info` of the payload. No payload is handed
to any external collaborator: the effect list contains no `.forward` (there
is no subscription point in `comm.py`) and no `.send`. The claim's required
delivery to application-level consumers does not happen. -/
theorem C6_notification_counterexample :
    handle_message notifMsg = .effects [.logNotification (.str "x".data)]
    ∧ [Effect.logNotification (.str "x".data)].filter isForwardEffect = []
    ∧ [Effect.logNotification (.str "x".data)].filter isSendEffect = [] :=
  ⟨by rfl, by rfl, by rfl⟩

/-- C6 (amended): for every verified inbound envelope whose message kind is
`notification`, the receive loop only records the payload in the log — the
single effect is `logNotification` of `msg.get("data")`; nothing is
forwarded to an external collaborator and nothing is written back. -/
theorem C6_notification_logged_only :
    ∀ kvs, pyLookup kvs "type".data = some (.str "notification".data) →
      handle_message (.obj kvs) =
        .effects [.logNotification ((pyLookup kvs "data".data).getD .null)] := by
  intro kvs h
  show HandleRes.effects (dispatchObj kvs) = _
  unfold dispatchObj
  rw [h]
  exact rfl

/-- Witness for C6 (amended) at the sample notification message. -/
theorem C6_notification_logged_only_witness :
    pyLookup [("type".data, Json.str "notification".data), ("data".data, Json.str "x".data)]
      "type".data = some (.str "notification".data)
    ∧ handle_message notifMsg =
        .effects [.logNotification ((pyLookup [("type".data, Json.str "notification".data),
          ("data".data, Json.str "x".data)] "data".data).getD .null)] :=
  ⟨by rfl,
   C6_notification_logged_only
     [("type".data, Json.str "notification".data), ("data".data, Json.str "x".data)] (by rfl)⟩

/-- C7 counterexample: the state reached after a session drop —
`run()` has set `connected = False` (the session state projection is
`Disconnected`), while `self.ws` still holds the stale, closed handle
(`comm.py` never resets `self.ws` to `None`). The claim requires `send` to
fail with `NotConnected` in any non-`Connected`/`Authenticating` state, but
`send_message` only guards `if not self.ws`: it proceeds and fails on the
transport write instead. -/
theorem C7_send_counterexample :
    send_message ⟨some ⟨false⟩, false⟩ sampleSecret [] 0 "m".data = .error .transportErr
    ∧ SendErr.transportErr ≠ SendErr.notConnected :=
  ⟨by rfl, by decide⟩

/-- C7 (amended): `send` fails with `NotConnected` exactly when no
websocket handle exists (the client has never connected) — and then
nothing is written; once a handle exists, `send` signs and writes the
fresh envelope when the connection is open and fails with `TransportError`
on a dead connection (including sending while disconnected with a stale
handle, and any write failure while connected). -/
theorem C7_send_guard_is_handle :
    ∀ (v : ConnView) (secret : List Nat) (p : List (List Char × Json))
      (now : Int) (mid : List Char),
      (v.ws = none → send_message v secret p now mid = .error .notConnected)
      ∧ (∀ h, v.ws = some h →
          send_message v secret p now mid =
            if h.isOpen then .ok (sign_message secret ⟨now, mid, p⟩)
            else .error .transportErr) := by
  intro v secret p now mid
  constructor
  · intro hw
    simp [send_message, hw]
  · intro h hw
    simp [send_message, hw]

/-- Witness for C7 (amended): a never-connected client refuses to send;
a connected client with an open handle writes the signed frame. -/
theorem C7_send_guard_is_handle_witness :
    send_message ⟨none, false⟩ sampleSecret [] 0 "m".data = .error .notConnected
    ∧ send_message ⟨some ⟨true⟩, true⟩ sampleSecret [] 0 "m".data =
        if (true : Bool) then .ok (sign_message sampleSecret ⟨0, "m".data, []⟩)
        else .error .transportErr :=
  ⟨(C7_send_guard_is_handle ⟨none, false⟩ sampleSecret [] 0 "m".data).1 rfl,
   (C7_send_guard_is_handle ⟨some ⟨true⟩, true⟩ sampleSecret [] 0 "m".data).2 ⟨true⟩ rfl⟩

/-- C8: the claim (and spec §4.1/§7) requires every per-frame verification
failure to be logged and dropped with the loop continuing. The code's
`except (json.JSONDecodeError, KeyError)` shows that intent, but a frame
whose correctly-signed payload parses to a non-dict (here `"[]"`) makes
`WsMessage(message=frame_dict["message"], ...)` raise `TypeError`, which
nothing in the loop body catches: the receive loop stops and the later
frame is never processed (first two conjuncts). The third conjunct shows
the intended behaviour on an ordinary verification failure: the junk frame
is dropped and the next frame is still handled. -/
theorem C8_verification_crash_bug :
    verify_message sampleSecret crashFrame 100 = .crash
    ∧ listenGo sampleSecret 100 true
        [.frame crashFrame, .frame (sign_message sampleSecret sampleEnv)] =
        ([], .handlerCrash)
    ∧ (listenGo sampleSecret 100 true
        [.frame "junk".data, .frame (sign_message sampleSecret sampleEnv)]).1 =
        [.dropped .malformedFrame, .handled [.logUnknown]] :=
  ⟨by rfl, by rfl, by rfl⟩

end Kohaku
